import Mathlib

/-!
# codec-wiki: the batch translation runner

A shallow embedding of `scripts/local-translate.js` (class `LocalTranslator`, `main`) and
`scripts/translation-api.js` (class `TranslationAPI`), followed by theorems about them.

Modelling conventions.

* A path is the list of its components relative to the working directory; `path.join a b`
  is list append and `path.dirname` drops the last component.
* The filesystem is a finite tree of `Node`s.  `fs.statSync` follows links, so a link is
  represented by the node it resolves to.  A directory lists its entries in the order
  `fs.readdirSync` returns them.  Permissions and disk errors are not modelled: a call fails
  only for the shape of the tree (missing entry, directory in place of a file, ...).
* `Date` values (`stat.mtime`) are compared through their millisecond value, an `Int`.
  Writes are stamped with the clock of the `World`, which the `setTimeout` delays advance;
  the duration of a network call is not modelled.
* The remote services are a function `Net` from the requests sent so far and the current
  request to the reply; the `World` records every request handed to `https.request`.
* Of the console output only the per-file lines of `LocalTranslator.translateFile` are
  recorded (`Event`); all other `console.log` calls are left out, as is the size warning of
  `TranslationAPI.translateFile`, which has no effect.
* A JavaScript exception is the `error` case of `Except String`; functions that can leave the
  state changed before throwing return their outcome together with the resulting `World`.
-/

namespace CodecWiki

/-! ## Filesystem -/

abbrev Path := List String

/-- Filesystem node, as seen through `fs.statSync`: a regular file, a directory, or anything
else (`isFile()` and `isDirectory()` both false: fifo, socket, device). -/
inductive Node where
  | file (mtime : Int) (content : String)
  | dir (mtime : Int) (entries : List (String × Node))
  | other (mtime : Int)

abbrev Entries := List (String × Node)

/-- The `stat.mtime` field. -/
def Node.mtime : Node → Int
  | .file m _ => m
  | .dir m _ => m
  | .other m => m

/-- The `stat.isDirectory()` method. -/
def Node.isDirectory : Node → Bool
  | .dir _ _ => true
  | _ => false

/-- The `stat.isFile()` method. -/
def Node.isFile : Node → Bool
  | .file _ _ => true
  | _ => false

/-- Entry called `name` in a directory listing. -/
def lookupEntry : Entries → String → Option Node
  | [], _ => none
  | (n, c) :: rest, name => if n = name then some c else lookupEntry rest name

/-- Path resolution from a node. -/
def lookup : Node → Path → Option Node
  | n, [] => some n
  | .dir _ es, name :: rest =>
    match lookupEntry es name with
    | some c => lookup c rest
    | none => none
  | .file _ _, _ :: _ => none
  | .other _, _ :: _ => none

/-- The call `fs.existsSync(p)`. -/
def existsSync (root : Node) (p : Path) : Bool :=
  (lookup root p).isSome

/-- The call `fs.statSync(p)`: throws when nothing is at `p`. -/
def statSync (root : Node) (p : Path) : Except String Node :=
  match lookup root p with
  | some n => .ok n
  | none => .error "ENOENT: no such file or directory, stat"

/-- The call `fs.readdirSync(p)`, each name paired with what `fs.statSync` finds under it. -/
def readdirSync (root : Node) (p : Path) : Except String Entries :=
  match lookup root p with
  | some (.dir _ es) => .ok es
  | some _ => .error "ENOTDIR: not a directory, scandir"
  | none => .error "ENOENT: no such file or directory, scandir"

/-- The call `fs.readFileSync(p, 'utf8')`. -/
def readFileSync (root : Node) (p : Path) : Except String String :=
  match lookup root p with
  | some (.file _ c) => .ok c
  | some (.dir _ _) => .error "EISDIR: illegal operation on a directory, read"
  | some (.other _) => .error "EIO: not a regular file, read"
  | none => .error "ENOENT: no such file or directory, open"

mutual
/-- Names are unique inside every directory below the node (what a real directory
guarantees). -/
def Node.wf : Node → Prop
  | .dir _ es => wfEntries es
  | .file _ _ => True
  | .other _ => True
/-- Names are unique in the listing and inside every directory below it. -/
def wfEntries : Entries → Prop
  | [] => True
  | (n, c) :: rest => lookupEntry rest n = none ∧ c.wf ∧ wfEntries rest
end

/-! ## `path.extname` -/

/-- The function `path.extname` on a single path component (no separator inside): the text
from the last dot on, and `''` when there is no dot, when the only dot is the first
character, or when the component is `..`. -/
def extname (item : String) : String :=
  let cs := item.toList
  let tail := (cs.reverse.takeWhile (fun c => c ≠ Char.ofNat 46)).reverse
  if tail.length = cs.length then ""
  else if tail.length + 1 = cs.length then ""
  else if item = ".." then ""
  else String.mk (Char.ofNat 46 :: tail)

/-! ## `local-translate.js`: configuration and scanner -/

/-- The `api` part of `CONFIG`. -/
structure ConfigApi where
  preferredAPI : String
  maxRetries : Nat
  retryDelay : Nat

/-- The shape of the `CONFIG` object. -/
structure Config where
  sourceDir : Path
  outputDir : Path
  supportedExtensions : List String
  excludeDirs : List String
  api : ConfigApi

def CONFIG : Config where
  sourceDir := ["docs"]
  outputDir := ["i18n", "zh", "docusaurus-plugin-content-docs", "current"]
  supportedExtensions := [".md", ".mdx"]
  excludeDirs := ["zh"]
  api := { preferredAPI := "deepseek", maxRetries := 3, retryDelay := 5000 }

/-- The object literal pushed by `getAllFiles`. -/
structure FileTask where
  input : Path
  output : Path
  relativePath : Path
deriving DecidableEq, Repr

mutual
/-- The body of the `for (const item of items)` loop of `getAllFiles`, for one `item` whose
`fs.statSync(fullPath)` is `stat` and whose `relativePath` is given. -/
def getAllFilesItem : String → Node → Path → List FileTask
  | item, .dir _ sub, relativePath =>
    if ¬ CONFIG.excludeDirs.contains item then getAllFiles sub relativePath else []
  | item, .file _ _, relativePath =>
    if CONFIG.supportedExtensions.contains (extname item) then
      [{ input := CONFIG.sourceDir ++ relativePath,
         output := CONFIG.outputDir ++ relativePath,
         relativePath := relativePath }]
    else []
  | _, .other _, _ => []
/-- The method `LocalTranslator.getAllFiles(dir, basePath)`.  The argument `dir` is given as
what `fs.readdirSync(dir)` lists, each item with the result of `fs.statSync(fullPath)`; the
loop over the items is the recursion on the list. -/
def getAllFiles : Entries → Path → List FileTask
  | [], _ => []
  | (item, stat) :: items, basePath =>
    getAllFilesItem item stat (basePath ++ [item]) ++ getAllFiles items basePath
end

/-- Replace the entry called `name`, or append it when there is none. -/
def setEntry : Entries → String → Node → Entries
  | [], name, n => [(name, n)]
  | (k, c) :: rest, name, n =>
    if k = name then (name, n) :: rest else (k, c) :: setEntry rest name n

/-- The call `fs.writeFileSync(p, content, 'utf8')` at time `now`: the parent must be a
directory; an existing regular file is overwritten, a missing one is created (which also
touches the parent); anything else at `p` makes the call throw. -/
def writeFileSync (now : Int) (content : String) : Node → Path → Except String Node
  | _, [] => .error "EISDIR: illegal operation on a directory, open"
  | .file _ _, _ :: _ => .error "ENOTDIR: not a directory, open"
  | .other _, _ :: _ => .error "ENOTDIR: not a directory, open"
  | .dir m es, [name] =>
    match lookupEntry es name with
    | none => .ok (.dir now (setEntry es name (.file now content)))
    | some (.file _ _) => .ok (.dir m (setEntry es name (.file now content)))
    | some (.dir _ _) => .error "EISDIR: illegal operation on a directory, open"
    | some (.other _) => .error "ENXIO: not a regular file, open"
  | .dir m es, name :: next :: rest =>
    match lookupEntry es name with
    | none => .error "ENOENT: no such file or directory, open"
    | some c =>
      match writeFileSync now content c (next :: rest) with
      | .ok c1 => .ok (.dir m (setEntry es name c1))
      | .error e => .error e

/-- The call `fs.mkdirSync(p, { recursive: true })` at time `now`. -/
def mkdirSync (now : Int) : Node → Path → Except String Node
  | .dir m es, [] => .ok (.dir m es)
  | .file _ _, [] => .error "EEXIST: file already exists, mkdir"
  | .other _, [] => .error "EEXIST: file already exists, mkdir"
  | .dir m es, name :: rest =>
    match lookupEntry es name with
    | some c =>
      match mkdirSync now c rest with
      | .ok c1 => .ok (.dir m (setEntry es name c1))
      | .error e => .error e
    | none =>
      match mkdirSync now (.dir now []) rest with
      | .ok c1 => .ok (.dir now (setEntry es name c1))
      | .error e => .error e
  | .file _ _, _ :: _ => .error "ENOTDIR: not a directory, mkdir"
  | .other _, _ :: _ => .error "ENOTDIR: not a directory, mkdir"

/-! ## The remote API and the world -/

/-- The shape of `DEFAULT_API_CONFIG` and `FALLBACK_API_CONFIG`; `temperature` keeps the
numeric literal as written. -/
structure ApiConfig where
  baseUrl : String
  apiPath : String
  model : String
  apiKey : String
  temperature : String
  maxTokens : Nat
deriving DecidableEq, Repr

def DEFAULT_API_CONFIG : ApiConfig where
  baseUrl := "https://api.deepseek.com"
  apiPath := "/v1/chat/completions"
  model := "deepseek-chat"
  apiKey := "sk-8dbddf0eb3c64c8f90ac58935b210db1"
  temperature := "1.3"
  maxTokens := 8000

def FALLBACK_API_CONFIG : ApiConfig where
  baseUrl := "https://api.openai.com"
  apiPath := "/v1/chat/completions"
  model := "gpt-4o-mini"
  apiKey := ""
  temperature := "0.1"
  maxTokens := 8000

/-- The system message sent with every request (`TRANSLATION_PROMPT`). -/
def TRANSLATION_PROMPT : String :=
  "You are a professional Chinese native translator specialized in video encoding and multimedia technology content who needs to fluently translate text into Chinese.\n\n## Translation Rules\n1. Output only the translated content, without explanations or additional content\n2. Maintain all technical terminology, programming language syntax, and code snippets exactly as in the original\n3. If the text contains HTML tags or MDX components, preserve their structure and placement while maintaining fluency\n4. Preserve product names, company names, and technology abbreviations in their original form (e.g., AV1, HEVC, x264, FFmpeg)\n5. Keep all UI elements, button names, and menu items as they appear in localized software when available\n6. Translate technical concepts accurately while preserving their technical meaning\n7. For video encoding terminology, use established Chinese translations:\n   - \"编码器\" for encoder\n   - \"解码器\" for decoder  \n   - \"编解码器\" for codec\n   - \"比特率\" for bitrate\n   - \"帧率\" for framerate\n   - \"分辨率\" for resolution\n   - \"质量\" for quality\n   - \"压缩\" for compression\n   - \"无损\" for lossless\n   - \"有损\" for lossy\n   - \"滤镜\" for filter\n   - \"预设\" for preset\n   - \"参数\" for parameter\n   - \"算法\" for algorithm\n   - \"硬件加速\" for hardware acceleration\n8. Maintain the original formatting, including frontmatter, code blocks, and markdown syntax\n9. Do not translate file paths, URLs, or command-line parameters\n10. Keep mathematical formulas and technical specifications in their original form"

/-- What `https.request` is given by `makeRequest`: the URL, the two headers and the body
`requestData`. -/
structure Request where
  url : String
  contentType : String
  authorization : String
  model : String
  system : String
  user : String
  temperature : String
  max_tokens : Nat
deriving DecidableEq, Repr

/-- The fields of a parsed response body that the code reads: `parsed.error?.message`, and
`response.choices[0]?.message?.content` (`choices = none` when the body has no `choices`
to index, so that reading `choices[0]` throws; `some none` when the chain yields
`undefined`).  The content, when present, is taken to be a string. -/
structure Parsed where
  errorMessage : Option String
  choices : Option (Option String)
deriving DecidableEq, Repr

/-- What the transport delivers for one request: an `error` event, or a response with its
status, its raw body and the outcome of `JSON.parse` on it (`none`: the parse throws). -/
inductive Reply where
  | networkError (message : String)
  | response (statusCode : Nat) (responseData : String) (parsed : Option Parsed)
deriving DecidableEq, Repr

/-- The remote side: the reply to a request, given the requests sent before it. -/
abbrev Net := List Request → Request → Reply

/-- Lines printed by `LocalTranslator.translateFile`. -/
inductive Event where
  | translating (input : Path)
  | succeeded (output : Path)
  | failed (input : Path)
deriving DecidableEq, Repr

/-- Everything outside the process: the filesystem below the working directory, the clock
(milliseconds), the requests sent so far and the per-file console lines. -/
structure World where
  root : Node
  now : Int
  requests : List Request
  events : List Event

/-- The statement `await new Promise(resolve => setTimeout(resolve, ms))`. -/
def sleep (ms : Nat) (w : World) : World :=
  { w with now := w.now + ms }

/-- JavaScript truthiness of a value that is a string or `undefined`. -/
def truthy : Option String → Bool
  | some s => s ≠ ""
  | none => false

/-! ## `translation-api.js` -/

/-- The fields set by the constructor of `TranslationAPI`. -/
structure TranslationAPI where
  maxRetries : Nat
  retryDelay : Nat
  primaryConfig : ApiConfig
  fallbackConfig : Option ApiConfig
deriving DecidableEq, Repr

/-- The constructor `new TranslationAPI()`. -/
def TranslationAPI.new : TranslationAPI where
  maxRetries := 3
  retryDelay := 5000
  primaryConfig := DEFAULT_API_CONFIG
  fallbackConfig := some FALLBACK_API_CONFIG

def buildApiUrl (config : ApiConfig) : String :=
  config.baseUrl ++ config.apiPath

/-- The method `buildHeaders`: the pair (`Content-Type`, `Authorization`). -/
def buildHeaders (config : ApiConfig) : Except String (String × String) :=
  if config.apiKey = "" then .error "API密钥未配置"
  else .ok ("application/json", "Bearer " ++ config.apiKey)

/-- The method `makeRequest`: resolves with the parsed body on a 2xx status, rejects on a
network error, an unparseable body or any other status. -/
def makeRequest (net : Net) (req : Request) (w : World) : Except String Parsed × World :=
  let w1 := { w with requests := w.requests ++ [req] }
  match net w.requests req with
  | .networkError message => (.error ("请求失败: " ++ message), w1)
  | .response _ _ none => (.error "解析响应失败", w1)
  | .response statusCode responseData (some parsed) =>
    if 200 ≤ statusCode ∧ statusCode < 300 then (.ok parsed, w1)
    else
      (.error ("API错误 " ++ toString statusCode ++ ": " ++
        (if truthy parsed.errorMessage then parsed.errorMessage.getD "" else responseData)), w1)

/-- The request `callOpenAICompatibleAPI` sends: `url`, `headers` and `requestData`. -/
def buildRequest (url : String) (headers : String × String) (config : ApiConfig)
    (content : String) : Request :=
  { url := url, contentType := headers.1, authorization := headers.2,
    model := config.model, system := TRANSLATION_PROMPT, user := content,
    temperature := config.temperature, max_tokens := config.maxTokens }

/-- The method `callOpenAICompatibleAPI`. -/
def callOpenAICompatibleAPI (net : Net) (config : ApiConfig) (content : String) (w : World) :
    Except String (Option String) × World :=
  let url := buildApiUrl config
  match buildHeaders config with
  | .error e => (.error e, w)
  | .ok headers =>
    match makeRequest net (buildRequest url headers config content) w with
    | (.error e, w1) => (.error e, w1)
    | (.ok response, w1) =>
      match response.choices with
      | none => (.error "TypeError: Cannot read properties of undefined (reading 0)", w1)
      | some content => (.ok content, w1)

/-- One of the two `for (let attempt = 1; attempt <= this.maxRetries; attempt++)` loops of
`translateText`, with `k` iterations left.  The result is the value returned from inside the
loop, if any, and `lastError`. -/
def attemptLoop (api : TranslationAPI) (net : Net) (config : ApiConfig) (content : String) :
    Nat → Nat → Option String → World → (Option String × Option String) × World
  | 0, _, lastError, w => ((none, lastError), w)
  | k + 1, attempt, lastError, w =>
    match callOpenAICompatibleAPI net config content w with
    | (.ok result, w1) =>
      if truthy result then ((result, lastError), w1)
      else attemptLoop api net config content k (attempt + 1) lastError w1
    | (.error error, w1) =>
      let w2 := if attempt < api.maxRetries then sleep api.retryDelay w1 else w1
      attemptLoop api net config content k (attempt + 1) (some error) w2

/-- The method `translateText`. -/
def translateText (api : TranslationAPI) (net : Net) (content : String) (w : World) :
    Except String String × World :=
  match attemptLoop api net api.primaryConfig content api.maxRetries 1 none w with
  | ((some result, _), w1) => (.ok result, w1)
  | ((none, lastError), w1) =>
    match api.fallbackConfig with
    | some fallbackConfig =>
      if fallbackConfig.apiKey ≠ "" then
        match attemptLoop api net fallbackConfig content api.maxRetries 1 lastError w1 with
        | ((some result, _), w2) => (.ok result, w2)
        | ((none, lastError2), w2) => (.error (lastError2.getD "所有翻译API都失败了"), w2)
      else (.error (lastError.getD "所有翻译API都失败了"), w1)
    | none => (.error (lastError.getD "所有翻译API都失败了"), w1)

/-- The body of the `try` block of `TranslationAPI.translateFile`. -/
def translateFileBody (api : TranslationAPI) (net : Net) (inputPath outputPath : Path)
    (w : World) : Except String Bool × World :=
  match readFileSync w.root inputPath with
  | .error e => (.error e, w)
  | .ok content =>
    match translateText api net content w with
    | (.error e, w1) => (.error e, w1)
    | (.ok translatedContent, w1) =>
      if translatedContent ≠ "" then
        let outputDir := outputPath.dropLast
        let made :=
          if ¬ existsSync w1.root outputDir then mkdirSync w1.now w1.root outputDir
          else .ok w1.root
        match made with
        | .error e => (.error e, w1)
        | .ok root1 =>
          match writeFileSync w1.now translatedContent root1 outputPath with
          | .error e => (.error e, { w1 with root := root1 })
          | .ok root2 => (.ok true, { w1 with root := root2 })
      else (.ok false, w1)

/-- The method `TranslationAPI.translateFile`: the `catch` turns every exception of the body
into the return value `false`. -/
def TranslationAPI.translateFile (api : TranslationAPI) (net : Net) (inputPath outputPath : Path)
    (w : World) : Except String Bool × World :=
  match translateFileBody api net inputPath outputPath w with
  | (.ok b, w1) => (.ok b, w1)
  | (.error _, w1) => (.ok false, w1)

/-! ## `local-translate.js`: the runner -/

/-- The fields of a `LocalTranslator`.  `needsTranslationReplaced` records the assignment
`translator.needsTranslation = () => true` made by `main` under `--force`. -/
structure LocalTranslator where
  translatedCount : Nat
  failedCount : Nat
  skippedCount : Nat
  translationAPI : TranslationAPI
  needsTranslationReplaced : Bool
deriving DecidableEq, Repr

/-- The constructor of `LocalTranslator`, for a given `TranslationAPI` object. -/
def LocalTranslator.new (api : TranslationAPI) : LocalTranslator where
  translatedCount := 0
  failedCount := 0
  skippedCount := 0
  translationAPI := api
  needsTranslationReplaced := false

/-- The method `needsTranslation` as written in the class. -/
def needsTranslation (root : Node) (file : FileTask) : Except String Bool :=
  if ¬ existsSync root file.output then .ok true
  else
    match statSync root file.input with
    | .error e => .error e
    | .ok sourceStat =>
      match statSync root file.output with
      | .error e => .error e
      | .ok outputStat => .ok (decide (sourceStat.mtime > outputStat.mtime))

/-- The call `translator.needsTranslation(file)`: the method, or `() => true` once `main`
has replaced it. -/
def LocalTranslator.needsTranslation (t : LocalTranslator) (root : Node) (file : FileTask) :
    Except String Bool :=
  if t.needsTranslationReplaced then .ok true else CodecWiki.needsTranslation root file

/-- The expression `allFiles.filter(file => this.needsTranslation(file))`. -/
def filterNeedsTranslation (t : LocalTranslator) (root : Node) :
    List FileTask → Except String (List FileTask)
  | [] => .ok []
  | file :: files =>
    match t.needsTranslation root file with
    | .error e => .error e
    | .ok keep =>
      match filterNeedsTranslation t root files with
      | .error e => .error e
      | .ok kept => .ok (if keep then file :: kept else kept)

/-- The method `LocalTranslator.translateFile`. -/
def LocalTranslator.translateFile (t : LocalTranslator) (net : Net) (file : FileTask)
    (w : World) : Bool × LocalTranslator × World :=
  let w0 := { w with events := w.events ++ [Event.translating file.input] }
  match t.translationAPI.translateFile net file.input file.output w0 with
  | (.ok true, w1) =>
    (true, { t with translatedCount := t.translatedCount + 1 },
      { w1 with events := w1.events ++ [Event.succeeded file.output] })
  | (.ok false, w1) =>
    (false, { t with failedCount := t.failedCount + 1 },
      { w1 with events := w1.events ++ [Event.failed file.input] })
  | (.error _, w1) =>
    (false, { t with failedCount := t.failedCount + 1 },
      { w1 with events := w1.events ++ [Event.failed file.input] })

/-! ### Category descriptors -/

/-- The own properties of the object literal `CATEGORY_LABELS`. -/
def CATEGORY_LABELS : List (String × String) :=
  [("audio", "音频编解码器"), ("colorimetry", "色彩学"), ("data", "数据压缩"),
   ("encoders", "编码器"), ("encoders_hw", "硬件编码器"), ("filtering", "滤镜处理"),
   ("images", "图像格式"), ("introduction", "介绍"), ("metrics", "质量评估指标"),
   ("subtitles", "字幕"), ("utilities", "实用工具"), ("video", "视频编解码器")]

/-- The values a property read `CATEGORY_LABELS[item]` can produce. -/
inductive JsValue where
  | undefined
  | string (s : String)
  | function (name : String)
  | objectPrototype
deriving DecidableEq, Repr

/-- The property read `CATEGORY_LABELS[item]`: an own property of the literal, else what
the object inherits from `Object.prototype` (its methods, and the accessor `__proto__`, which
yields the prototype itself). -/
def categoryLabelsGet (item : String) : JsValue :=
  match CATEGORY_LABELS.lookup item with
  | some label => .string label
  | none =>
    if item = "__proto__" then .objectPrototype
    else if item ∈ ["constructor", "__defineGetter__", "__defineSetter__", "hasOwnProperty",
        "__lookupGetter__", "__lookupSetter__", "isPrototypeOf", "propertyIsEnumerable",
        "toString", "valueOf", "toLocaleString"] then
      .function item
    else .undefined

def JsValue.truthy : JsValue → Bool
  | .undefined => false
  | .string s => s ≠ ""
  | .function _ => true
  | .objectPrototype => true

/-- The expression `CATEGORY_LABELS[item] || item`. -/
def categoryLabel (item : String) : JsValue :=
  if (categoryLabelsGet item).truthy then categoryLabelsGet item else .string item

def hexDigit (n : Nat) : Char :=
  if n < 10 then Char.ofNat (48 + n) else Char.ofNat (87 + n)

/-- How `JSON.stringify` writes one character of a string. -/
def quoteJSONChar (c : Char) : List Char :=
  if c.toNat = 8 then [Char.ofNat 92, Char.ofNat 98]
  else if c.toNat = 9 then [Char.ofNat 92, Char.ofNat 116]
  else if c.toNat = 10 then [Char.ofNat 92, Char.ofNat 110]
  else if c.toNat = 12 then [Char.ofNat 92, Char.ofNat 102]
  else if c.toNat = 13 then [Char.ofNat 92, Char.ofNat 114]
  else if c.toNat = 34 then [Char.ofNat 92, Char.ofNat 34]
  else if c.toNat = 92 then [Char.ofNat 92, Char.ofNat 92]
  else if c.toNat < 32 then
    [Char.ofNat 92, Char.ofNat 117, Char.ofNat 48, Char.ofNat 48,
      hexDigit (c.toNat / 16), hexDigit (c.toNat % 16)]
  else [c]

/-- How `JSON.stringify` writes a string. -/
def quoteJSONString (s : String) : String :=
  String.mk (Char.ofNat 34 :: (s.toList.flatMap quoteJSONChar ++ [Char.ofNat 34]))

/-- The text `JSON.stringify(categoryContent, null, 2)` for
`categoryContent = { label, position: 1, link: { type: 'generated-index' } }`: a property
whose value is a function is left out, and `Object.prototype` has no enumerable property. -/
def stringifyCategoryContent (label : JsValue) : String :=
  "\x7b\n" ++
  (match label with
   | .string s => "  \"label\": " ++ quoteJSONString s ++ ",\n"
   | .objectPrototype => "  \"label\": \x7b\x7d,\n"
   | .function _ => ""
   | .undefined => "") ++
  "  \"position\": 1,\n  \"link\": \x7b\n    \"type\": \"generated-index\"\n  \x7d\n\x7d"

/-- The `for (const item of items)` loop of `createCategoryFiles`. -/
def createCategoryLoop (outputDir : Path) : List String → World → Except String Unit × World
  | [], w => (.ok (), w)
  | item :: items, w =>
    let itemPath := outputDir ++ [item]
    match statSync w.root itemPath with
    | .error e => (.error e, w)
    | .ok stat =>
      if stat.isDirectory then
        let categoryFile := itemPath ++ ["_category_.json"]
        let label := categoryLabel item
        match writeFileSync w.now (stringifyCategoryContent label) w.root categoryFile with
        | .error e => (.error e, w)
        | .ok root1 => createCategoryLoop outputDir items { w with root := root1 }
      else createCategoryLoop outputDir items w

/-- The method `createCategoryFiles`. -/
def createCategoryFiles (w : World) : Except String Unit × World :=
  let outputDir := CONFIG.outputDir
  if existsSync w.root outputDir then
    match readdirSync w.root outputDir with
    | .error e => (.error e, w)
    | .ok items => createCategoryLoop outputDir (items.map Prod.fst) w
  else (.ok (), w)

/-! ### `run` and `main` -/

/-- The `for` loop of `run` over `filesToTranslate`, as a recursion on the files still to be
processed; the test `i < filesToTranslate.length - 1` of the delay is the test that some file
is left after the current one. -/
def translateLoop (net : Net) : List FileTask → LocalTranslator → World → LocalTranslator × World
  | [], t, w => (t, w)
  | file :: files, t, w =>
    match t.translateFile net file w with
    | (_, t1, w1) =>
      let w2 := if files.length > 0 then sleep CONFIG.api.retryDelay w1 else w1
      translateLoop net files t1 w2

/-- How a call of `run` ends. -/
inductive RunResult where
  | returned
  | exited (code : Nat)
  | threw (error : String)
deriving DecidableEq, Repr

/-- The method `run`. -/
def run (t : LocalTranslator) (net : Net) (w : World) : RunResult × LocalTranslator × World :=
  match readdirSync w.root CONFIG.sourceDir with
  | .error e => (.threw e, t, w)
  | .ok items =>
    let allFiles := getAllFiles items []
    match filterNeedsTranslation t w.root allFiles with
    | .error e => (.threw e, t, w)
    | .ok filesToTranslate =>
      if filesToTranslate.length = 0 then (.returned, t, w)
      else
        match translateLoop net filesToTranslate t w with
        | (t1, w1) =>
          match createCategoryFiles w1 with
          | (.error e, w2) => (.threw e, t1, w2)
          | (.ok (), w2) =>
            if t1.failedCount > 0 then (.exited 1, t1, w2) else (.returned, t1, w2)

/-- The function `main` with its `catch` handler: the exit code of the process, given the
command-line arguments and the `TranslationAPI` the translator is built with. -/
def main (args : List String) (api : TranslationAPI) (net : Net) (w : World) :
    Nat × LocalTranslator × World :=
  let translator := LocalTranslator.new api
  if args.contains "--help" || args.contains "-h" then (0, translator, w)
  else if args.contains "--dry-run" then
    match readdirSync w.root CONFIG.sourceDir with
    | .error _ => (1, translator, w)
    | .ok items =>
      match filterNeedsTranslation translator w.root (getAllFiles items []) with
      | .error _ => (1, translator, w)
      | .ok _ => (0, translator, w)
  else
    let translator :=
      if args.contains "--force" then { translator with needsTranslationReplaced := true }
      else translator
    match run translator net w with
    | (.returned, t1, w1) => (0, t1, w1)
    | (.exited code, t1, w1) => (code, t1, w1)
    | (.threw _, t1, w1) => (1, t1, w1)

/-! ## Derived notions used in the statements -/

/-- The content a reply makes `callOpenAICompatibleAPI` return as a truthy result, if any:
a 2xx status, a parsed body, and a non-empty `choices[0].message.content`. -/
def replyContent : Reply → Option String
  | .response statusCode _ (some parsed) =>
    if 200 ≤ statusCode ∧ statusCode < 300 then
      match parsed.choices with
      | some (some c) => if c ≠ "" then some c else none
      | _ => none
    else none
  | _ => none

/-- The request sent for `content` to the provider configured by `config`. -/
def requestFor (config : ApiConfig) (content : String) : Request :=
  buildRequest (buildApiUrl config) ("application/json", "Bearer " ++ config.apiKey) config content

/-- The truthy content carried by the outcome of one API call, if any. -/
def callContent : Except String (Option String) → Option String
  | .ok (some c) => if c ≠ "" then some c else none
  | _ => none

/-- A request that was sent to a fallback provider holding a credential. -/
def fromFallback (api : TranslationAPI) (r : Request) : Prop :=
  ∃ fc content, api.fallbackConfig = some fc ∧ fc.apiKey ≠ "" ∧ r = requestFor fc content

/-- The translator `main` calls `run` on: a fresh `LocalTranslator`, with `needsTranslation`
replaced under `--force`. -/
def mainTranslator (args : List String) (api : TranslationAPI) : LocalTranslator :=
  if args.contains "--force" then
    { LocalTranslator.new api with needsTranslationReplaced := true }
  else LocalTranslator.new api

/-- What can be observed of a node without its timestamps: its kind and, for a regular
file, its content. -/
inductive Shallow where
  | file (content : String)
  | dir
  | other
deriving DecidableEq, Repr

def Node.shallow : Node → Shallow
  | .file _ c => .file c
  | .dir _ _ => .dir
  | .other _ => .other

/-- What is observed at a path: nothing, or the kind (and content) of the node there. -/
def shallowAt (root : Node) (p : Path) : Option Shallow :=
  (lookup root p).map Node.shallow

/-- The path `categoryFile` of the descriptor written for `item`. -/
def categoryFilePath (outputDir : Path) (item : String) : Path :=
  outputDir ++ [item] ++ ["_category_.json"]

/-- The text written into the descriptor of `item`. -/
def categoryText (item : String) : String :=
  stringifyCategoryContent (categoryLabel item)

/-- The task `getAllFiles` builds for a relative path. -/
def taskFor (relativePath : Path) : FileTask :=
  { input := CONFIG.sourceDir ++ relativePath,
    output := CONFIG.outputDir ++ relativePath,
    relativePath := relativePath }

mutual
/-- The relative paths, starting with `item`, of the documents found at or below the entry
`item`: used to describe the result of `getAllFiles` independently of `basePath`. -/
def candidatePathsItem : String → Node → List Path
  | item, .dir _ sub =>
    if ¬ CONFIG.excludeDirs.contains item then (candidatePaths sub).map (fun rel => item :: rel)
    else []
  | item, .file _ _ =>
    if CONFIG.supportedExtensions.contains (extname item) then [[item]] else []
  | _, .other _ => []
/-- The relative paths of the documents found below a directory listing. -/
def candidatePaths : Entries → List Path
  | [] => []
  | (item, stat) :: items => candidatePathsItem item stat ++ candidatePaths items
end

/-- The description of a candidate document by its path `rel` relative to a directory
listing: a regular file is found there, the extension of its name is supported, and none of
the directories on the way is excluded. -/
def isCandidate (es : Entries) (rel : Path) : Prop :=
  (∃ m c, lookup (.dir 0 es) rel = some (.file m c)) ∧
  (∃ name, rel.getLast? = some name ∧ extname name ∈ CONFIG.supportedExtensions) ∧
  (∀ d ∈ rel.dropLast, d ∉ CONFIG.excludeDirs)

/-- The input path of a "translating" console line. -/
def Event.translatingInput : Event → Option Path
  | .translating input => some input
  | _ => none

/-! ## Fixtures for the instances -/

/-- A reply carrying the translated text `c`. -/
def okReply (c : String) : Reply :=
  .response 200 "" (some { errorMessage := none, choices := some (some c) })

/-- A mocked remote side: requests to `url` fail until the same request has been sent `n`
times and the next one is answered with `c`; every other request is answered with `c1`. -/
def mockNet (url : String) (n : Nat) (c c1 : String) : Net :=
  fun h r =>
    if r.url = url then (if h.count r = n then okReply c else .networkError "ECONNRESET")
    else okReply c1

/-- A `TranslationAPI` whose fallback provider has a credential. -/
def apiWithFallback : TranslationAPI :=
  { TranslationAPI.new with
    fallbackConfig := some { FALLBACK_API_CONFIG with apiKey := "sk-fallback" } }

/-- A world with an empty working directory, no request sent, nothing printed. -/
def emptyWorld : World :=
  { root := .dir 0 [], now := 0, requests := [], events := [] }

/-- A `TranslationAPI` with no credential at all: the primary provider's `apiKey` is empty,
and so is the fallback's (as in `FALLBACK_API_CONFIG`). -/
def apiWithoutKey : TranslationAPI :=
  { TranslationAPI.new with primaryConfig := { DEFAULT_API_CONFIG with apiKey := "" } }

/-- A source tree with two documents, `docs/a.md` and `docs/b.md`, and no translation. -/
def twoStaleWorld : World :=
  { root := .dir 0 [("docs", .dir 0 [("a.md", .file 10 "A"), ("b.md", .file 10 "B")])],
    now := 100, requests := [], events := [] }

/-- A source tree with two documents of which `docs/b.md` has an up-to-date translation. -/
def oneStaleWorld : World :=
  { root := .dir 0
      [("docs", .dir 0 [("a.md", .file 10 "A"), ("b.md", .file 10 "B")]),
       ("i18n", .dir 20 [("zh", .dir 20 [("docusaurus-plugin-content-docs", .dir 20
          [("current", .dir 20 [("b.md", .file 20 "乙")])])])])],
    now := 100, requests := [], events := [] }

/-- A remote side that answers every request with a translation. -/
def alwaysOkNet : Net :=
  fun _ r => okReply ("译:" ++ r.user)

/-- An output tree with the subdirectories `audio`, `misc` and `constructor`, and a regular
file `notes.md`. -/
def categoryWorld : World :=
  { root := .dir 0 [("i18n", .dir 0 [("zh", .dir 0 [("docusaurus-plugin-content-docs", .dir 0
      [("current", .dir 0
        [("audio", .dir 0 []), ("notes.md", .file 5 "x"), ("misc", .dir 0 []),
         ("constructor", .dir 0 [])])])])])],
    now := 100, requests := [], events := [] }

/-- The listing of a source directory with a document, an excluded directory holding a
document, and a subdirectory with a document, a dot-file and a text file. -/
def sampleDocs : Entries :=
  [("a.md", .file 10 "A"),
   ("zh", .dir 0 [("c.md", .file 1 "C")]),
   ("sub", .dir 0 [("d.mdx", .file 1 "D"), (".md", .file 1 "x"), ("e.txt", .file 1 "y")])]

/-- A working directory whose `docs` directory lists `sampleDocs`. -/
def sampleRoot : Node :=
  .dir 0 [("docs", .dir 0 sampleDocs)]

/-! ## Lemmas on the filesystem -/

theorem lookup_nil (r : Node) : lookup r [] = some r := by
  cases r <;> simp [lookup]

theorem lookup_dir_cons (m : Int) (es : Entries) (name : String) (rest : Path) :
    lookup (.dir m es) (name :: rest) =
      (match lookupEntry es name with
       | some c => lookup c rest
       | none => none) := by
  rw [lookup]

theorem shallowAt_nil (r : Node) : shallowAt r [] = some r.shallow := by
  simp [shallowAt, lookup_nil]

theorem shallowAt_dir_cons (m : Int) (es : Entries) (name : String) (rest : Path) :
    shallowAt (.dir m es) (name :: rest) =
      (match lookupEntry es name with
       | some c => shallowAt c rest
       | none => none) := by
  unfold shallowAt
  rw [lookup_dir_cons]
  cases lookupEntry es name <;> rfl

theorem shallowAt_file_cons (m : Int) (c : String) (name : String) (rest : Path) :
    shallowAt (.file m c) (name :: rest) = none := by
  simp [shallowAt, lookup]

theorem shallowAt_other_cons (m : Int) (name : String) (rest : Path) :
    shallowAt (.other m) (name :: rest) = none := by
  simp [shallowAt, lookup]

theorem lookupEntry_setEntry (es : Entries) (name k : String) (n : Node) :
    lookupEntry (setEntry es name n) k = if name = k then some n else lookupEntry es k := by
  induction es with
  | nil => simp [setEntry, lookupEntry]
  | cons e es ih =>
    obtain ⟨k0, c0⟩ := e
    by_cases h0 : k0 = name
    · subst h0
      by_cases hk : k0 = k
      · simp [setEntry, lookupEntry, hk]
      · simp [setEntry, lookupEntry, hk]
    · by_cases hk : k0 = k
      · subst hk
        simp [setEntry, lookupEntry, h0, Ne.symm h0]
      · simp [setEntry, lookupEntry, h0, hk, ih]

theorem setEntry_names (es : Entries) (name : String) (n ch : Node)
    (h : lookupEntry es name = some ch) :
    (setEntry es name n).map Prod.fst = es.map Prod.fst := by
  induction es with
  | nil => simp [lookupEntry] at h
  | cons e es ih =>
    obtain ⟨k0, c0⟩ := e
    by_cases h0 : k0 = name
    · simp [setEntry, h0]
    · simp only [lookupEntry, h0, if_false] at h
      simp [setEntry, h0, ih h]

theorem writeFileSync_nil (t : Int) (c : String) (r : Node) :
    writeFileSync t c r [] = .error "EISDIR: illegal operation on a directory, open" := by
  cases r <;> simp [writeFileSync]

theorem writeFileSync_last (t : Int) (c : String) (m : Int) (es : Entries) (name : String) :
    writeFileSync t c (.dir m es) [name] =
      (match lookupEntry es name with
       | none => .ok (.dir t (setEntry es name (.file t c)))
       | some (.file _ _) => .ok (.dir m (setEntry es name (.file t c)))
       | some (.dir _ _) => .error "EISDIR: illegal operation on a directory, open"
       | some (.other _) => .error "ENXIO: not a regular file, open") := by
  rw [writeFileSync]

theorem writeFileSync_cons (t : Int) (c : String) (m : Int) (es : Entries) (name a : String)
    (rest : Path) :
    writeFileSync t c (.dir m es) (name :: a :: rest) =
      (match lookupEntry es name with
       | none => .error "ENOENT: no such file or directory, open"
       | some ch =>
         match writeFileSync t c ch (a :: rest) with
         | .ok c1 => .ok (.dir m (setEntry es name c1))
         | .error e => .error e) := by
  rw [writeFileSync]

/-- A successful write has one of two shapes: the last component is set to the new file in a
directory where it was absent or a regular file, or the write went into a child. -/
theorem writeFileSync_ok_cases (t : Int) (c : String) (r r1 : Node) (name : String)
    (rest : Path) (h : writeFileSync t c r (name :: rest) = .ok r1) :
    ∃ m es, r = .dir m es ∧
      ((rest = [] ∧ ∃ m1, r1 = .dir m1 (setEntry es name (.file t c)) ∧
          (lookupEntry es name = none ∨ ∃ m0 c0, lookupEntry es name = some (.file m0 c0))) ∨
       (∃ a rest1 ch c1, rest = a :: rest1 ∧ lookupEntry es name = some ch ∧
          writeFileSync t c ch (a :: rest1) = .ok c1 ∧ r1 = .dir m (setEntry es name c1))) := by
  cases r with
  | file m c0 => simp [writeFileSync] at h
  | other m => simp [writeFileSync] at h
  | dir m es =>
    refine ⟨m, es, rfl, ?_⟩
    cases rest with
    | nil =>
      left
      rw [writeFileSync_last] at h
      cases hl : lookupEntry es name with
      | none =>
        rw [hl] at h
        simp only [Except.ok.injEq] at h
        exact ⟨rfl, t, h.symm, Or.inl rfl⟩
      | some ch =>
        rw [hl] at h
        cases ch with
        | file m0 c0 =>
          simp only [Except.ok.injEq] at h
          exact ⟨rfl, m, h.symm, Or.inr ⟨m0, c0, rfl⟩⟩
        | dir m0 es0 => cases h
        | other m0 => cases h
    | cons a rest1 =>
      right
      rw [writeFileSync_cons] at h
      cases hl : lookupEntry es name with
      | none => rw [hl] at h; cases h
      | some ch =>
        rw [hl] at h
        simp only at h
        cases hw : writeFileSync t c ch (a :: rest1) with
        | error e => rw [hw] at h; cases h
        | ok c1 =>
          rw [hw] at h
          simp only [Except.ok.injEq] at h
          exact ⟨a, rest1, ch, c1, rfl, rfl, hw, h.symm⟩

/-- After a successful write the path holds a regular file with the written content. -/
theorem writeFileSync_shallow_self (t : Int) (c : String) (p : Path) :
    ∀ r r1, writeFileSync t c r p = .ok r1 → shallowAt r1 p = some (.file c) := by
  induction p with
  | nil => intro r r1 h; rw [writeFileSync_nil] at h; cases h
  | cons name rest ih =>
    intro r r1 h
    obtain ⟨m, es, rfl, ⟨rfl, m1, rfl, _⟩ | ⟨a, rest1, ch, c1, rfl, hl, hw, rfl⟩⟩ :=
      writeFileSync_ok_cases t c r r1 name rest h
    · rw [shallowAt_dir_cons, lookupEntry_setEntry]
      simp [shallowAt_nil, Node.shallow]
    · rw [shallowAt_dir_cons, lookupEntry_setEntry]
      simp only [if_true]
      exact ih ch c1 hw

/-- A successful write changes what is observed at no other path. -/
theorem writeFileSync_shallow_other (t : Int) (c : String) (p : Path) :
    ∀ r r1 q, writeFileSync t c r p = .ok r1 → q ≠ p → shallowAt r1 q = shallowAt r q := by
  induction p with
  | nil => intro r r1 q h; rw [writeFileSync_nil] at h; cases h
  | cons name rest ih =>
    intro r r1 q h hq
    obtain ⟨m, es, rfl, ⟨rfl, m1, rfl, hold⟩ | ⟨a, rest1, ch, c1, rfl, hl, hw, rfl⟩⟩ :=
      writeFileSync_ok_cases t c r r1 name rest h
    · cases q with
      | nil => simp [shallowAt_nil, Node.shallow]
      | cons k qs =>
        rw [shallowAt_dir_cons, shallowAt_dir_cons, lookupEntry_setEntry]
        by_cases hk : name = k
        · subst hk
          have hqs : qs ≠ [] := fun h0 => hq (by rw [h0])
          obtain ⟨k1, qs1, rfl⟩ : ∃ k1 qs1, qs = k1 :: qs1 := by
            cases qs with
            | nil => exact absurd rfl hqs
            | cons k1 qs1 => exact ⟨k1, qs1, rfl⟩
          simp only [if_true, shallowAt_file_cons]
          rcases hold with hnone | ⟨m0, c0, hsome⟩
          · rw [hnone]
          · rw [hsome]; simp [shallowAt_file_cons]
        · simp only [hk, if_false]
    · cases q with
      | nil => simp [shallowAt_nil, Node.shallow]
      | cons k qs =>
        rw [shallowAt_dir_cons, shallowAt_dir_cons, lookupEntry_setEntry]
        by_cases hk : name = k
        · subst hk
          simp only [if_true, hl]
          exact ih ch c1 qs hw (fun h0 => hq (by rw [h0]))
        · simp only [hk, if_false]

/-- Writing succeeds where a regular file already is. -/
theorem writeFileSync_ok_of_file (t : Int) (c : String) (p : Path) :
    ∀ r c0, shallowAt r p = some (.file c0) → p ≠ [] → ∃ r1, writeFileSync t c r p = .ok r1 := by
  induction p with
  | nil => intro r c0 _ hp; exact absurd rfl hp
  | cons name rest ih =>
    intro r c0 h _
    cases r with
    | file m c1 => rw [shallowAt_file_cons] at h; cases h
    | other m => rw [shallowAt_other_cons] at h; cases h
    | dir m es =>
      rw [shallowAt_dir_cons] at h
      cases hl : lookupEntry es name with
      | none => rw [hl] at h; cases h
      | some ch =>
        rw [hl] at h
        simp only at h
        cases rest with
        | nil =>
          rw [shallowAt_nil] at h
          cases ch with
          | file m0 c1 => exact ⟨_, by rw [writeFileSync_last, hl]⟩
          | dir m0 es0 => simp [Node.shallow] at h
          | other m0 => simp [Node.shallow] at h
        | cons a rest1 =>
          obtain ⟨c1, hc1⟩ := ih ch c0 h (by simp)
          exact ⟨.dir m (setEntry es name c1), by rw [writeFileSync_cons, hl]; simp only [hc1]⟩

/-- Whether a write succeeds depends only on what is observed of the tree. -/
theorem writeFileSync_ok_congr (t t1 : Int) (c c1 : String) (p : Path) :
    ∀ r r1 s, (∀ q, shallowAt s q = shallowAt r q) → writeFileSync t c r p = .ok r1 →
      ∃ s1, writeFileSync t1 c1 s p = .ok s1 := by
  induction p with
  | nil => intro r r1 s _ h; rw [writeFileSync_nil] at h; cases h
  | cons name rest ih =>
    intro r r1 s hobs h
    obtain ⟨m, es, rfl, hcases⟩ := writeFileSync_ok_cases t c r r1 name rest h
    have hroot := hobs []
    rw [shallowAt_nil, shallowAt_nil] at hroot
    cases s with
    | file m0 c0 => simp [Node.shallow] at hroot
    | other m0 => simp [Node.shallow] at hroot
    | dir m0 es0 =>
      have hchild : ∀ q,
          (match lookupEntry es0 name with
           | some ch => shallowAt ch q
           | none => none) =
          (match lookupEntry es name with
           | some ch => shallowAt ch q
           | none => none) := by
        intro q
        have := hobs (name :: q)
        rwa [shallowAt_dir_cons, shallowAt_dir_cons] at this
      rcases hcases with ⟨rfl, m1, rfl, hnone | ⟨m2, c2, hsome⟩⟩ | ⟨a, rest1, ch, c3, rfl, hl, hw, rfl⟩
      · have h0 := hchild []
        rw [hnone] at h0
        cases hl0 : lookupEntry es0 name with
        | none => exact ⟨_, by rw [writeFileSync_last, hl0]⟩
        | some ch0 => rw [hl0] at h0; simp [shallowAt_nil] at h0
      · have h0 := hchild []
        rw [hsome] at h0
        cases hl0 : lookupEntry es0 name with
        | none => rw [hl0] at h0; simp [shallowAt_nil] at h0
        | some ch0 =>
          rw [hl0] at h0
          simp only [shallowAt_nil, Option.some.injEq] at h0
          cases ch0 with
          | file m3 c3 => exact ⟨_, by rw [writeFileSync_last, hl0]⟩
          | dir m3 es3 => simp [Node.shallow] at h0
          | other m3 => simp [Node.shallow] at h0
      · have h0 := hchild []
        rw [hl] at h0
        cases hl0 : lookupEntry es0 name with
        | none => rw [hl0] at h0; simp [shallowAt_nil] at h0
        | some ch0 =>
          have hsub : ∀ q, shallowAt ch0 q = shallowAt ch q := by
            intro q
            have := hchild q
            rwa [hl0, hl] at this
          obtain ⟨s1, hs1⟩ := ih ch c3 ch0 hsub hw
          exact ⟨.dir m0 (setEntry es0 name s1), by rw [writeFileSync_cons, hl0]; simp only [hs1]⟩

/-- A write two levels below a directory leaves the names listed in that directory as they
were. -/
theorem writeFileSync_readdir_names (t : Int) (c : String) (a b : String) (dirPath : Path) :
    ∀ r r1 es, writeFileSync t c r (dirPath ++ [a] ++ [b]) = .ok r1 →
      readdirSync r dirPath = .ok es →
      ∃ es1, readdirSync r1 dirPath = .ok es1 ∧ es1.map Prod.fst = es.map Prod.fst := by
  induction dirPath with
  | nil =>
    intro r r1 es h hread
    obtain ⟨m, es0, rfl, ⟨hnil, _⟩ | ⟨a1, rest1, ch, c1, hrest, hl, hw, rfl⟩⟩ :=
      writeFileSync_ok_cases t c r r1 a [b] h
    · cases hnil
    · simp only [readdirSync, lookup_nil, Except.ok.injEq] at hread
      subst hread
      exact ⟨_, by simp [readdirSync, lookup_nil], setEntry_names es0 a c1 ch hl⟩
  | cons x dirPath ih =>
    intro r r1 es h hread
    obtain ⟨m, es0, rfl, ⟨hnil, _⟩ | ⟨a1, rest1, ch, c1, hrest, hl, hw, rfl⟩⟩ :=
      writeFileSync_ok_cases t c r r1 x (dirPath ++ [a] ++ [b]) h
    · simp at hnil
    · rw [← hrest] at hw
      have hread1 : readdirSync ch dirPath = .ok es := by
        simpa [readdirSync, lookup_dir_cons, hl] using hread
      obtain ⟨es1, h1, h2⟩ := ih ch c1 es hw hread1
      refine ⟨es1, ?_, h2⟩
      simpa [readdirSync, lookup_dir_cons, lookupEntry_setEntry] using h1

/-! ## Lemmas on the scanner -/

mutual
theorem getAllFilesItem_eq_map : ∀ (stat : Node) (item : String) (basePath : Path),
    getAllFilesItem item stat (basePath ++ [item]) =
      (candidatePathsItem item stat).map (fun rel => taskFor (basePath ++ rel))
  | .dir m sub, item, basePath => by
    have ih := getAllFiles_eq_map sub (basePath ++ [item])
    rw [getAllFilesItem, candidatePathsItem]
    by_cases hex : item ∈ CONFIG.excludeDirs
    · simp [hex]
    · simp [hex, ih, Function.comp]
  | .file m c, item, basePath => by
    rw [getAllFilesItem, candidatePathsItem]
    by_cases hext : extname item ∈ CONFIG.supportedExtensions
    · simp [hext, taskFor]
    · simp [hext]
  | .other m, item, basePath => by
    rw [getAllFilesItem, candidatePathsItem]
    rfl
theorem getAllFiles_eq_map : ∀ (items : Entries) (basePath : Path),
    getAllFiles items basePath =
      (candidatePaths items).map (fun rel => taskFor (basePath ++ rel))
  | [], basePath => by
    rw [getAllFiles, candidatePaths]
    rfl
  | (item, stat) :: items, basePath => by
    rw [getAllFiles, candidatePaths, List.map_append,
      getAllFilesItem_eq_map stat item basePath, getAllFiles_eq_map items basePath]
end

theorem isCandidate_nil (es : Entries) : ¬ isCandidate es [] := by
  intro h
  obtain ⟨⟨m, c, hl⟩, _⟩ := h
  rw [lookup_nil] at hl
  cases hl

theorem isCandidate_head (es : Entries) (k : String) (qs : Path)
    (h : isCandidate es (k :: qs)) : ∃ ch, lookupEntry es k = some ch := by
  obtain ⟨⟨m, c, hl⟩, _⟩ := h
  rw [lookup_dir_cons] at hl
  cases hk : lookupEntry es k with
  | none => rw [hk] at hl; cases hl
  | some ch => exact ⟨ch, rfl⟩

/-- Candidates below a listing are those below its first entry or below the others. -/
theorem isCandidate_cons (item : String) (n : Node) (rest : Entries) (rel : Path)
    (hnone : lookupEntry rest item = none) :
    isCandidate ((item, n) :: rest) rel ↔ isCandidate [(item, n)] rel ∨ isCandidate rest rel := by
  cases rel with
  | nil => simp [isCandidate_nil]
  | cons k qs =>
    by_cases hk : item = k
    · subst hk
      have hrest : ¬ isCandidate rest (item :: qs) := by
        intro h
        obtain ⟨ch, hch⟩ := isCandidate_head rest item qs h
        rw [hnone] at hch
        cases hch
      have heq : lookup (.dir 0 ((item, n) :: rest)) (item :: qs) =
          lookup (.dir 0 [(item, n)]) (item :: qs) := by
        simp [lookup_dir_cons, lookupEntry]
      simp only [hrest, or_false]
      unfold isCandidate
      rw [heq]
    · have hsingle : ¬ isCandidate [(item, n)] (k :: qs) := by
        intro h
        obtain ⟨ch, hch⟩ := isCandidate_head _ k qs h
        simp [lookupEntry, hk] at hch
      have heq : lookup (.dir 0 ((item, n) :: rest)) (k :: qs) =
          lookup (.dir 0 rest) (k :: qs) := by
        simp [lookup_dir_cons, lookupEntry, hk]
      simp only [hsingle, false_or]
      unfold isCandidate
      rw [heq]

theorem isCandidate_single_head (item : String) (n : Node) (rel : Path)
    (h : isCandidate [(item, n)] rel) : ∃ qs, rel = item :: qs := by
  cases rel with
  | nil => exact absurd h (isCandidate_nil _)
  | cons k qs =>
    obtain ⟨ch, hch⟩ := isCandidate_head _ k qs h
    by_cases hk : item = k
    · subst hk; exact ⟨qs, rfl⟩
    · simp [lookupEntry, hk] at hch

theorem isCandidate_single_file (item : String) (m : Int) (c : String) (rel : Path) :
    isCandidate [(item, .file m c)] rel ↔
      rel = [item] ∧ extname item ∈ CONFIG.supportedExtensions := by
  constructor
  · intro h
    obtain ⟨qs, rfl⟩ := isCandidate_single_head _ _ _ h
    obtain ⟨⟨m1, c1, hl⟩, ⟨name, hname, hext⟩, _⟩ := h
    cases qs with
    | nil =>
      simp only [List.getLast?_singleton, Option.some.injEq] at hname
      subst hname
      exact ⟨rfl, hext⟩
    | cons q qs =>
      simp [lookup_dir_cons, lookupEntry, lookup] at hl
  · rintro ⟨rfl, hext⟩
    refine ⟨⟨m, c, ?_⟩, ⟨item, rfl, hext⟩, ?_⟩
    · simp [lookup_dir_cons, lookupEntry, lookup_nil]
    · intro d hd
      simp at hd

theorem isCandidate_single_other (item : String) (m : Int) (rel : Path) :
    ¬ isCandidate [(item, .other m)] rel := by
  intro h
  obtain ⟨qs, rfl⟩ := isCandidate_single_head _ _ _ h
  obtain ⟨⟨m1, c1, hl⟩, _⟩ := h
  cases qs with
  | nil => simp [lookup_dir_cons, lookupEntry, lookup_nil] at hl
  | cons q qs => simp [lookup_dir_cons, lookupEntry, lookup] at hl

theorem isCandidate_single_dir (item : String) (m : Int) (sub : Entries) (rel : Path) :
    isCandidate [(item, .dir m sub)] rel ↔
      item ∉ CONFIG.excludeDirs ∧ ∃ qs, rel = item :: qs ∧ isCandidate sub qs := by
  constructor
  · intro h
    obtain ⟨qs, rfl⟩ := isCandidate_single_head _ _ _ h
    obtain ⟨⟨m1, c1, hl⟩, ⟨name, hname, hext⟩, hdirs⟩ := h
    cases qs with
    | nil => simp [lookup_dir_cons, lookupEntry, lookup_nil] at hl
    | cons q qs =>
      have hl1 : lookup (.dir 0 sub) (q :: qs) = some (.file m1 c1) := by
        simpa [lookup_dir_cons, lookupEntry] using hl
      have hname1 : (q :: qs).getLast? = some name := by
        simpa [List.getLast?_cons_cons] using hname
      have hdrop : (item :: q :: qs).dropLast = item :: (q :: qs).dropLast := by
        simp [List.dropLast]
      rw [hdrop] at hdirs
      exact ⟨hdirs item (List.mem_cons_self _ _), q :: qs, rfl, ⟨m1, c1, hl1⟩,
        ⟨name, hname1, hext⟩, fun d hd => hdirs d (List.mem_cons_of_mem _ hd)⟩
  · rintro ⟨hitem, qs, rfl, ⟨m1, c1, hl⟩, ⟨name, hname, hext⟩, hdirs⟩
    cases qs with
    | nil => rw [lookup_nil] at hl; cases hl
    | cons q qs =>
      refine ⟨⟨m1, c1, ?_⟩, ⟨name, ?_, hext⟩, ?_⟩
      · simpa [lookup_dir_cons, lookupEntry] using hl
      · simpa [List.getLast?_cons_cons] using hname
      · have hdrop : (item :: q :: qs).dropLast = item :: (q :: qs).dropLast := by
          simp [List.dropLast]
        rw [hdrop]
        intro d hd
        rcases List.mem_cons.mp hd with rfl | hd1
        · exact hitem
        · exact hdirs d hd1

mutual
theorem candidatePathsItem_spec : ∀ (stat : Node) (item : String), stat.wf →
    (candidatePathsItem item stat).Nodup ∧
    ∀ rel, rel ∈ candidatePathsItem item stat ↔ isCandidate [(item, stat)] rel
  | .dir m sub, item, hwf => by
    have hsub : wfEntries sub := by simpa [Node.wf] using hwf
    obtain ⟨hnd, hmem⟩ := candidatePaths_spec sub hsub
    rw [candidatePathsItem]
    by_cases hex : item ∈ CONFIG.excludeDirs
    · refine ⟨by simp [hex], fun rel => ?_⟩
      rw [isCandidate_single_dir]
      simp [hex]
    · have hc : CONFIG.excludeDirs.contains item = false := by simpa using hex
      simp only [hc, Bool.false_eq_true, not_false_eq_true, if_true]
      refine ⟨?_, fun rel => ?_⟩
      · exact hnd.map (fun a b h => List.tail_eq_of_cons_eq h)
      · rw [isCandidate_single_dir]
        simp only [hex, not_false_eq_true, List.mem_map, true_and]
        constructor
        · rintro ⟨qs, hqs, rfl⟩
          exact ⟨qs, rfl, (hmem qs).mp hqs⟩
        · rintro ⟨qs, rfl, hqs⟩
          exact ⟨qs, (hmem qs).mpr hqs, rfl⟩
  | .file m c, item, _ => by
    rw [candidatePathsItem]
    by_cases hext : extname item ∈ CONFIG.supportedExtensions
    · refine ⟨by simp [hext], fun rel => ?_⟩
      rw [isCandidate_single_file]
      simp [hext]
    · refine ⟨by simp [hext], fun rel => ?_⟩
      rw [isCandidate_single_file]
      simp [hext]
  | .other m, item, _ => by
    rw [candidatePathsItem]
    exact ⟨List.nodup_nil, fun rel => by simp [isCandidate_single_other]⟩
theorem candidatePaths_spec : ∀ (items : Entries), wfEntries items →
    (candidatePaths items).Nodup ∧ ∀ rel, rel ∈ candidatePaths items ↔ isCandidate items rel
  | [], _ => by
    rw [candidatePaths]
    refine ⟨List.nodup_nil, fun rel => ?_⟩
    constructor
    · intro h; cases h
    · intro h
      cases rel with
      | nil => exact absurd h (isCandidate_nil _)
      | cons k qs =>
        obtain ⟨ch, hch⟩ := isCandidate_head _ k qs h
        simp [lookupEntry] at hch
  | (item, stat) :: items, hwf => by
    have hwf1 : lookupEntry items item = none ∧ stat.wf ∧ wfEntries items := by
      simpa [wfEntries] using hwf
    obtain ⟨hnone, hstat, hitems⟩ := hwf1
    obtain ⟨hnd1, hmem1⟩ := candidatePathsItem_spec stat item hstat
    obtain ⟨hnd2, hmem2⟩ := candidatePaths_spec items hitems
    rw [candidatePaths]
    refine ⟨?_, fun rel => ?_⟩
    · rw [List.nodup_append]
      refine ⟨hnd1, hnd2, ?_⟩
      intro rel h1 h2
      obtain ⟨qs, rfl⟩ := isCandidate_single_head _ _ _ ((hmem1 rel).mp h1)
      obtain ⟨ch, hch⟩ := isCandidate_head _ _ _ ((hmem2 _).mp h2)
      rw [hnone] at hch
      cases hch
    · rw [List.mem_append, isCandidate_cons item stat items rel hnone, hmem1, hmem2]
end

theorem lookup_append (p q : Path) :
    ∀ (r n : Node), lookup r p = some n → lookup r (p ++ q) = lookup n q := by
  induction p with
  | nil =>
    intro r n h
    rw [lookup_nil] at h
    cases h
    rfl
  | cons k p ih =>
    intro r n h
    cases r with
    | file m c => simp [lookup] at h
    | other m => simp [lookup] at h
    | dir m es =>
      rw [lookup_dir_cons] at h
      rw [List.cons_append, lookup_dir_cons]
      cases hk : lookupEntry es k with
      | none => rw [hk] at h; cases h
      | some ch =>
        rw [hk] at h
        exact ih ch n h

theorem readdirSync_ok (r : Node) (p : Path) (es : Entries) (h : readdirSync r p = .ok es) :
    ∃ m, lookup r p = some (.dir m es) := by
  unfold readdirSync at h
  cases hl : lookup r p with
  | none => rw [hl] at h; cases h
  | some n =>
    rw [hl] at h
    cases n with
    | file m c => cases h
    | other m => cases h
    | dir m es0 =>
      simp only [Except.ok.injEq] at h
      subst h
      exact ⟨m, rfl⟩

theorem lookup_dir_file_mtime (m : Int) (es : Entries) (rel : Path) :
    (∃ m1 c, lookup (.dir m es) rel = some (.file m1 c)) ↔
      ∃ m1 c, lookup (.dir 0 es) rel = some (.file m1 c) := by
  cases rel with
  | nil => simp [lookup_nil]
  | cons k qs => rw [lookup_dir_cons, lookup_dir_cons]

/-! ## Lemmas on the category descriptors -/

theorem statSync_shallowAt (r : Node) (q : Path) :
    (∃ e, statSync r q = .error e ∧ shallowAt r q = none) ∨
    (∃ n, statSync r q = .ok n ∧ shallowAt r q = some n.shallow) := by
  unfold statSync shallowAt
  cases lookup r q with
  | none => exact Or.inl ⟨_, rfl, rfl⟩
  | some n => exact Or.inr ⟨n, rfl, rfl⟩

theorem isDirectory_iff_shallow (n : Node) : n.isDirectory = true ↔ n.shallow = .dir := by
  cases n <;> simp [Node.isDirectory, Node.shallow]

/-- The four ways one iteration of the loop of `createCategoryFiles` can go. -/
theorem createCategoryLoop_cons (outputDir : Path) (item : String) (items : List String)
    (w : World) :
    (shallowAt w.root (outputDir ++ [item]) = none ∧
      ∃ e, createCategoryLoop outputDir (item :: items) w = (.error e, w)) ∨
    ((∃ sh, shallowAt w.root (outputDir ++ [item]) = some sh ∧ sh ≠ .dir) ∧
      createCategoryLoop outputDir (item :: items) w = createCategoryLoop outputDir items w) ∨
    (shallowAt w.root (outputDir ++ [item]) = some .dir ∧
      ∃ e, writeFileSync w.now (categoryText item) w.root (categoryFilePath outputDir item) =
          .error e ∧
        createCategoryLoop outputDir (item :: items) w = (.error e, w)) ∨
    (shallowAt w.root (outputDir ++ [item]) = some .dir ∧
      ∃ root1, writeFileSync w.now (categoryText item) w.root (categoryFilePath outputDir item) =
          .ok root1 ∧
        createCategoryLoop outputDir (item :: items) w =
          createCategoryLoop outputDir items { w with root := root1 }) := by
  rcases statSync_shallowAt w.root (outputDir ++ [item]) with ⟨e, hs, hsh⟩ | ⟨n, hs, hsh⟩
  · left
    exact ⟨hsh, e, by simp [createCategoryLoop, hs]⟩
  · by_cases hd : n.isDirectory = true
    · have hdir : n.shallow = .dir := (isDirectory_iff_shallow n).mp hd
      rw [hdir] at hsh
      cases hw : writeFileSync w.now (categoryText item) w.root
          (categoryFilePath outputDir item) with
      | error e =>
        right; right; left
        refine ⟨hsh, e, rfl, ?_⟩
        unfold categoryText categoryFilePath at hw
        simp only [createCategoryLoop, hs, hd, hw, if_true]
      | ok root1 =>
        right; right; right
        refine ⟨hsh, root1, rfl, ?_⟩
        unfold categoryText categoryFilePath at hw
        simp only [createCategoryLoop, hs, hd, hw, if_true]
    · right; left
      refine ⟨⟨n.shallow, hsh, fun h => hd ((isDirectory_iff_shallow n).mpr h)⟩, ?_⟩
      simp [createCategoryLoop, hs, hd]

theorem categoryFilePath_injective (outputDir : Path) (a b : String)
    (h : categoryFilePath outputDir a = categoryFilePath outputDir b) : a = b := by
  unfold categoryFilePath at h
  simpa using h

theorem categoryFilePath_ne_dir (outputDir : Path) (a b : String) :
    outputDir ++ [a] ≠ categoryFilePath outputDir b := by
  intro h
  have := congrArg List.length h
  simp [categoryFilePath] at this

theorem categoryFilePath_ne_nil (outputDir : Path) (a : String) :
    categoryFilePath outputDir a ≠ [] := by
  simp [categoryFilePath]

/-- The loop keeps every observation that is not contradicted by a descriptor it writes. -/
theorem createCategoryLoop_keeps (outputDir : Path) (items : List String) :
    ∀ (w : World) (q : Path) (sh : Option Shallow), shallowAt w.root q = sh →
      (∀ item ∈ items, q = categoryFilePath outputDir item →
        sh = some (.file (categoryText item))) →
      shallowAt (createCategoryLoop outputDir items w).2.root q = sh := by
  induction items with
  | nil => intro w q sh h _; exact h
  | cons item items ih =>
    intro w q sh h hside
    have hside1 : ∀ i ∈ items, q = categoryFilePath outputDir i →
        sh = some (.file (categoryText i)) :=
      fun i hi => hside i (List.mem_cons_of_mem _ hi)
    rcases createCategoryLoop_cons outputDir item items w with
      ⟨_, e, heq⟩ | ⟨_, heq⟩ | ⟨_, e, _, heq⟩ | ⟨_, root1, hw, heq⟩
    · rw [heq]; exact h
    · rw [heq]; exact ih w q sh h hside1
    · rw [heq]; exact h
    · rw [heq]
      refine ih { w with root := root1 } q sh ?_ hside1
      by_cases hq : q = categoryFilePath outputDir item
      · rw [hside item (List.mem_cons_self _ _) hq, hq]
        exact writeFileSync_shallow_self _ _ _ _ _ hw
      · rw [← h]
        exact writeFileSync_shallow_other _ _ _ _ _ q hw hq

/-- Running the loop again, from any tree observed like the one it produced, ends in a tree
observed like the one it produced. -/
theorem createCategoryLoop_again (outputDir : Path) (items : List String) :
    ∀ (w v : World),
      (∀ q, shallowAt v.root q = shallowAt (createCategoryLoop outputDir items w).2.root q) →
      ∀ q, shallowAt (createCategoryLoop outputDir items v).2.root q =
        shallowAt (createCategoryLoop outputDir items w).2.root q := by
  induction items with
  | nil => intro w v h; exact h
  | cons item items ih =>
    intro w v hobs
    rcases createCategoryLoop_cons outputDir item items w with
      ⟨hsh, e, heq⟩ | ⟨⟨sh, hsh, hnd⟩, heq⟩ | ⟨hsh, e, hw, heq⟩ | ⟨hsh, root1, hw, heq⟩
    · -- nothing at the item: the first run stopped here, and so does the second
      rw [heq] at hobs ⊢
      have hv : shallowAt v.root (outputDir ++ [item]) = none := by rw [hobs]; exact hsh
      rcases createCategoryLoop_cons outputDir item items v with
        ⟨_, e1, heq1⟩ | ⟨⟨sh1, h1, _⟩, _⟩ | ⟨h1, _⟩ | ⟨h1, _⟩
      · rw [heq1]; exact hobs
      · rw [hv] at h1; cases h1
      · rw [hv] at h1; cases h1
      · rw [hv] at h1; cases h1
    · -- not a directory: skipped in both runs
      rw [heq] at hobs ⊢
      have hkeep := createCategoryLoop_keeps outputDir items w (outputDir ++ [item]) (some sh) hsh
        (fun i _ hq => absurd hq (categoryFilePath_ne_dir outputDir item i))
      have hv : shallowAt v.root (outputDir ++ [item]) = some sh := by rw [hobs]; exact hkeep
      rcases createCategoryLoop_cons outputDir item items v with
        ⟨h1, _⟩ | ⟨_, heq1⟩ | ⟨h1, _⟩ | ⟨h1, _⟩
      · rw [hv] at h1; cases h1
      · rw [heq1]; exact ih w v hobs
      · rw [hv] at h1; cases h1; exact absurd rfl hnd
      · rw [hv] at h1; cases h1; exact absurd rfl hnd
    · -- the write failed: the first run stopped here, and the write fails again
      rw [heq] at hobs ⊢
      have hv : shallowAt v.root (outputDir ++ [item]) = some .dir := by rw [hobs]; exact hsh
      rcases createCategoryLoop_cons outputDir item items v with
        ⟨h1, _⟩ | ⟨⟨sh1, h1, hnd1⟩, _⟩ | ⟨_, e1, _, heq1⟩ | ⟨_, root1, hw1, _⟩
      · rw [hv] at h1; cases h1
      · rw [hv] at h1; cases h1; exact absurd rfl hnd1
      · rw [heq1]; exact hobs
      · obtain ⟨s1, hs1⟩ := writeFileSync_ok_congr v.now w.now (categoryText item)
          (categoryText item) (categoryFilePath outputDir item) v.root root1 w.root
          (fun q => (hobs q).symm) hw1
        rw [hw] at hs1
        cases hs1
    · -- the descriptor was written: the second run rewrites the same text
      rw [heq] at hobs ⊢
      have hdir1 : shallowAt root1 (outputDir ++ [item]) = some .dir := by
        rw [writeFileSync_shallow_other _ _ _ _ _ _ hw (categoryFilePath_ne_dir outputDir item item)]
        exact hsh
      have hkeepDir := createCategoryLoop_keeps outputDir items { w with root := root1 }
        (outputDir ++ [item]) (some .dir) hdir1
        (fun i _ hq => absurd hq (categoryFilePath_ne_dir outputDir item i))
      have hkeepFile := createCategoryLoop_keeps outputDir items { w with root := root1 }
        (categoryFilePath outputDir item) (some (.file (categoryText item)))
        (writeFileSync_shallow_self _ _ _ _ _ hw)
        (fun i _ hq => by rw [categoryFilePath_injective outputDir item i hq])
      have hv : shallowAt v.root (outputDir ++ [item]) = some .dir := by
        rw [hobs]; exact hkeepDir
      have hvf : shallowAt v.root (categoryFilePath outputDir item) =
          some (.file (categoryText item)) := by rw [hobs]; exact hkeepFile
      obtain ⟨s1, hs1⟩ := writeFileSync_ok_of_file v.now (categoryText item)
        (categoryFilePath outputDir item) v.root (categoryText item) hvf
        (categoryFilePath_ne_nil outputDir item)
      rcases createCategoryLoop_cons outputDir item items v with
        ⟨h1, _⟩ | ⟨⟨sh1, h1, hnd1⟩, _⟩ | ⟨_, e1, hw1, _⟩ | ⟨_, root2, hw2, heq2⟩
      · rw [hv] at h1; cases h1
      · rw [hv] at h1; cases h1; exact absurd rfl hnd1
      · rw [hs1] at hw1; cases hw1
      · rw [heq2]
        refine ih { w with root := root1 } { v with root := root2 } ?_
        intro q
        by_cases hq : q = categoryFilePath outputDir item
        · rw [hq]
          show shallowAt root2 _ = _
          rw [writeFileSync_shallow_self _ _ _ _ _ hw2, hkeepFile]
        · show shallowAt root2 _ = _
          rw [writeFileSync_shallow_other _ _ _ _ _ q hw2 hq]
          exact hobs q

/-- The loop leaves the names listed in the output directory as they were. -/
theorem createCategoryLoop_readdir (outputDir : Path) (items : List String) :
    ∀ (w : World) (es : Entries), readdirSync w.root outputDir = .ok es →
      ∃ es1, readdirSync (createCategoryLoop outputDir items w).2.root outputDir = .ok es1 ∧
        es1.map Prod.fst = es.map Prod.fst := by
  induction items with
  | nil => intro w es h; exact ⟨es, h, rfl⟩
  | cons item items ih =>
    intro w es h
    rcases createCategoryLoop_cons outputDir item items w with
      ⟨_, e, heq⟩ | ⟨_, heq⟩ | ⟨_, e, _, heq⟩ | ⟨_, root1, hw, heq⟩
    · rw [heq]; exact ⟨es, h, rfl⟩
    · rw [heq]; exact ih w es h
    · rw [heq]; exact ⟨es, h, rfl⟩
    · rw [heq]
      obtain ⟨es1, h1, h2⟩ := writeFileSync_readdir_names _ _ item "_category_.json" outputDir
        w.root root1 es hw h
      obtain ⟨es2, h3, h4⟩ := ih { w with root := root1 } es1 h1
      exact ⟨es2, h3, h4.trans h2⟩

theorem createCategoryFiles_of_readdir (w : World) :
    (∀ es, readdirSync w.root CONFIG.outputDir = .ok es →
      createCategoryFiles w = createCategoryLoop CONFIG.outputDir (es.map Prod.fst) w) ∧
    (∀ e, readdirSync w.root CONFIG.outputDir = .error e → (createCategoryFiles w).2 = w) := by
  unfold createCategoryFiles
  simp only
  cases hl : lookup w.root CONFIG.outputDir with
  | none =>
    have hex : existsSync w.root CONFIG.outputDir = false := by simp [existsSync, hl]
    constructor
    · intro es hes
      simp [readdirSync, hl] at hes
    · intro e _
      simp [hex]
  | some n =>
    have hex : existsSync w.root CONFIG.outputDir = true := by simp [existsSync, hl]
    rw [if_pos hex]
    constructor
    · intro es hes
      rw [hes]
    · intro e he
      rw [he]

/-- If the loop ends normally, every listed directory has its descriptor, with the text
computed for its name. -/
theorem createCategoryLoop_writes (outputDir : Path) (items : List String) :
    ∀ (w : World), (createCategoryLoop outputDir items w).1 = .ok () →
      ∀ d ∈ items, shallowAt w.root (outputDir ++ [d]) = some .dir →
        shallowAt (createCategoryLoop outputDir items w).2.root (categoryFilePath outputDir d) =
          some (.file (categoryText d)) := by
  induction items with
  | nil => intro w _ d hd; cases hd
  | cons item items ih =>
    intro w hok d hd hdir
    rcases createCategoryLoop_cons outputDir item items w with
      ⟨_, e, heq⟩ | ⟨⟨sh, hsh, hnd⟩, heq⟩ | ⟨_, e, _, heq⟩ | ⟨_, root1, hw, heq⟩
    · rw [heq] at hok; cases hok
    · rw [heq] at hok ⊢
      rcases List.mem_cons.mp hd with rfl | hd1
      · rw [hdir] at hsh; cases hsh; exact absurd rfl hnd
      · exact ih w hok d hd1 hdir
    · rw [heq] at hok; cases hok
    · rw [heq] at hok ⊢
      rcases List.mem_cons.mp hd with rfl | hd1
      · exact createCategoryLoop_keeps outputDir items { w with root := root1 } _ _
          (writeFileSync_shallow_self _ _ _ _ _ hw)
          (fun i _ hq => by rw [categoryFilePath_injective outputDir d i hq])
      · refine ih { w with root := root1 } hok d hd1 ?_
        show shallowAt root1 _ = _
        rw [writeFileSync_shallow_other _ _ _ _ _ _ hw (categoryFilePath_ne_dir outputDir d item)]
        exact hdir

/-- The loop changes nothing except the descriptors of the listed directories. -/
theorem createCategoryLoop_only (outputDir : Path) (items : List String) :
    ∀ (w : World) (q : Path),
      (∀ d ∈ items, shallowAt w.root (outputDir ++ [d]) = some .dir →
        q ≠ categoryFilePath outputDir d) →
      shallowAt (createCategoryLoop outputDir items w).2.root q = shallowAt w.root q := by
  induction items with
  | nil => intro w q _; rfl
  | cons item items ih =>
    intro w q hq
    have hq1 : ∀ d ∈ items, shallowAt w.root (outputDir ++ [d]) = some .dir →
        q ≠ categoryFilePath outputDir d :=
      fun d hd => hq d (List.mem_cons_of_mem _ hd)
    rcases createCategoryLoop_cons outputDir item items w with
      ⟨_, e, heq⟩ | ⟨_, heq⟩ | ⟨_, e, _, heq⟩ | ⟨hdir, root1, hw, heq⟩
    · rw [heq]
    · rw [heq]; exact ih w q hq1
    · rw [heq]
    · rw [heq]
      have hne := hq item (List.mem_cons_self _ _) hdir
      have hstep : shallowAt root1 q = shallowAt w.root q :=
        writeFileSync_shallow_other _ _ _ _ _ q hw hne
      rw [← hstep]
      refine ih { w with root := root1 } q (fun d hd hdir1 => hq1 d hd ?_)
      have : shallowAt root1 (outputDir ++ [d]) = shallowAt w.root (outputDir ++ [d]) :=
        writeFileSync_shallow_other _ _ _ _ _ _ hw (categoryFilePath_ne_dir outputDir d item)
      rw [← this]
      exact hdir1

/-- A name of the static table is labelled by its entry. -/
theorem categoryLabel_of_table (d label : String) (h : CATEGORY_LABELS.lookup d = some label)
    (hne : label ≠ "") : categoryLabel d = .string label := by
  simp [categoryLabel, categoryLabelsGet, h, JsValue.truthy, hne]

/-- A name outside the static table that is not a property inherited from `Object.prototype`
is labelled by itself. -/
theorem categoryLabel_of_plain (d : String) (h : CATEGORY_LABELS.lookup d = none)
    (hproto : d ∉ ["__proto__", "constructor", "__defineGetter__", "__defineSetter__",
      "hasOwnProperty", "__lookupGetter__", "__lookupSetter__", "isPrototypeOf",
      "propertyIsEnumerable", "toString", "valueOf", "toLocaleString"]) :
    categoryLabel d = .string d := by
  simp only [List.mem_cons, not_or] at hproto
  obtain ⟨h0, hrest⟩ := hproto
  have hmem : d ∉ ["constructor", "__defineGetter__", "__defineSetter__", "hasOwnProperty",
      "__lookupGetter__", "__lookupSetter__", "isPrototypeOf", "propertyIsEnumerable",
      "toString", "valueOf", "toLocaleString"] := by
    simp only [List.mem_cons, not_or]
    exact hrest
  simp [categoryLabel, categoryLabelsGet, h, h0, hmem, JsValue.truthy]

/-! ## Lemmas on the translation client -/

theorem callOpenAICompatibleAPI_noKey (net : Net) (config : ApiConfig) (content : String)
    (w : World) (hkey : config.apiKey = "") :
    callOpenAICompatibleAPI net config content w = (.error "API密钥未配置", w) := by
  simp [callOpenAICompatibleAPI, buildHeaders, hkey]

theorem callOpenAICompatibleAPI_world (net : Net) (config : ApiConfig) (content : String)
    (w : World) (hkey : config.apiKey ≠ "") :
    (callOpenAICompatibleAPI net config content w).2 =
      { w with requests := w.requests ++ [requestFor config content] } := by
  simp only [callOpenAICompatibleAPI, buildHeaders, hkey, if_false, requestFor, makeRequest]
  cases net w.requests (buildRequest (buildApiUrl config)
      ("application/json", "Bearer " ++ config.apiKey) config content) with
  | networkError m => rfl
  | response st raw parsed =>
    cases parsed with
    | none => rfl
    | some p =>
      by_cases hst : 200 ≤ st ∧ st < 300
      · simp only [hst, and_self, if_true]
        cases p.choices <;> rfl
      · simp only [hst, if_false]

theorem callOpenAICompatibleAPI_content (net : Net) (config : ApiConfig) (content : String)
    (w : World) (hkey : config.apiKey ≠ "") :
    callContent (callOpenAICompatibleAPI net config content w).1 =
      replyContent (net w.requests (requestFor config content)) := by
  simp only [callOpenAICompatibleAPI, buildHeaders, hkey, if_false, requestFor, makeRequest]
  cases net w.requests (buildRequest (buildApiUrl config)
      ("application/json", "Bearer " ++ config.apiKey) config content) with
  | networkError m => rfl
  | response st raw parsed =>
    cases parsed with
    | none => rfl
    | some p =>
      by_cases hst : 200 ≤ st ∧ st < 300
      · simp only [hst, and_self, if_true, replyContent]
        cases hc : p.choices with
        | none => rfl
        | some c => cases c <;> rfl
      · simp [hst, replyContent, callContent]

/-- One step of `attemptLoop`, in terms of the truthy content of the call. -/
theorem attemptLoop_succ (api : TranslationAPI) (net : Net) (config : ApiConfig)
    (content : String) (k attempt : Nat) (lastError : Option String) (w : World) :
    (∃ c, callContent (callOpenAICompatibleAPI net config content w).1 = some c ∧
      attemptLoop api net config content (k + 1) attempt lastError w =
        ((some c, lastError), (callOpenAICompatibleAPI net config content w).2)) ∨
    (callContent (callOpenAICompatibleAPI net config content w).1 = none ∧
      ∃ lastError1 w1, w1.root = (callOpenAICompatibleAPI net config content w).2.root ∧
        w1.requests = (callOpenAICompatibleAPI net config content w).2.requests ∧
        w1.events = (callOpenAICompatibleAPI net config content w).2.events ∧
        attemptLoop api net config content (k + 1) attempt lastError w =
          attemptLoop api net config content k (attempt + 1) lastError1 w1) := by
  rcases hcall : callOpenAICompatibleAPI net config content w with ⟨res, w1⟩
  cases res with
  | error e =>
    right
    refine ⟨rfl, some e, if attempt < api.maxRetries then sleep api.retryDelay w1 else w1,
      ?_, ?_, ?_, ?_⟩
    · split <;> rfl
    · split <;> rfl
    · split <;> rfl
    · simp [attemptLoop, hcall]
  | ok r =>
    cases r with
    | none =>
      right
      exact ⟨rfl, lastError, w1, rfl, rfl, rfl, by simp [attemptLoop, hcall, truthy]⟩
    | some c =>
      by_cases hc : c = ""
      · right
        exact ⟨by simp [callContent, hc], lastError, w1, rfl, rfl, rfl,
          by simp [attemptLoop, hcall, truthy, hc]⟩
      · left
        exact ⟨c, by simp [callContent, hc], by simp [attemptLoop, hcall, truthy, hc]⟩

theorem callOpenAICompatibleAPI_frame (net : Net) (config : ApiConfig) (content : String)
    (w : World) :
    (callOpenAICompatibleAPI net config content w).2.root = w.root ∧
    (callOpenAICompatibleAPI net config content w).2.events = w.events := by
  by_cases hkey : config.apiKey = ""
  · rw [callOpenAICompatibleAPI_noKey net config content w hkey]
    exact ⟨rfl, rfl⟩
  · rw [callOpenAICompatibleAPI_world net config content w hkey]
    exact ⟨rfl, rfl⟩

/-- The loop leaves the filesystem and the console alone. -/
theorem attemptLoop_frame (api : TranslationAPI) (net : Net) (config : ApiConfig)
    (content : String) (k : Nat) :
    ∀ (attempt : Nat) (lastError : Option String) (w : World),
      (attemptLoop api net config content k attempt lastError w).2.root = w.root ∧
      (attemptLoop api net config content k attempt lastError w).2.events = w.events := by
  induction k with
  | zero => intro attempt lastError w; exact ⟨rfl, rfl⟩
  | succ k ih =>
    intro attempt lastError w
    have hf := callOpenAICompatibleAPI_frame net config content w
    rcases attemptLoop_succ api net config content k attempt lastError w with
      ⟨c, _, heq⟩ | ⟨_, le1, w1, hroot, _, hev, heq⟩
    · rw [heq]; exact hf
    · rw [heq]
      have := ih (attempt + 1) le1 w1
      exact ⟨this.1.trans (hroot.trans hf.1), this.2.trans (hev.trans hf.2)⟩

/-- A result returned from inside the loop is a non-empty string. -/
theorem attemptLoop_result_ne (api : TranslationAPI) (net : Net) (config : ApiConfig)
    (content : String) (k : Nat) :
    ∀ (attempt : Nat) (lastError : Option String) (w : World) (c : String),
      (attemptLoop api net config content k attempt lastError w).1.1 = some c → c ≠ "" := by
  induction k with
  | zero => intro attempt lastError w c h; simp [attemptLoop] at h
  | succ k ih =>
    intro attempt lastError w c h
    rcases attemptLoop_succ api net config content k attempt lastError w with
      ⟨c1, hc1, heq⟩ | ⟨_, le1, w1, _, _, _, heq⟩
    · rw [heq] at h
      simp only [Option.some.injEq] at h
      subst h
      revert hc1
      cases (callOpenAICompatibleAPI net config content w).1 with
      | error e => simp [callContent]
      | ok r =>
        cases r with
        | none => simp [callContent]
        | some d =>
          simp only [callContent]
          split
          · intro hd; simp only [Option.some.injEq] at hd; subst hd; assumption
          · intro hd; cases hd
    · rw [heq] at h
      exact ih (attempt + 1) le1 w1 c h

/-- Without a credential the loop sends nothing and returns nothing. -/
theorem attemptLoop_noKey (api : TranslationAPI) (net : Net) (config : ApiConfig)
    (content : String) (hkey : config.apiKey = "") (k : Nat) :
    ∀ (attempt : Nat) (lastError : Option String) (w : World),
      (attemptLoop api net config content k attempt lastError w).1 =
        (none, if k = 0 then lastError else some "API密钥未配置") ∧
      (attemptLoop api net config content k attempt lastError w).2.requests = w.requests := by
  induction k with
  | zero => intro attempt lastError w; exact ⟨rfl, rfl⟩
  | succ k ih =>
    intro attempt lastError w
    have hcall := callOpenAICompatibleAPI_noKey net config content w hkey
    have hstep : attemptLoop api net config content (k + 1) attempt lastError w =
        attemptLoop api net config content k (attempt + 1) (some "API密钥未配置")
          (if attempt < api.maxRetries then sleep api.retryDelay w else w) := by
      simp [attemptLoop, hcall]
    rw [hstep]
    have h := ih (attempt + 1) (some "API密钥未配置")
      (if attempt < api.maxRetries then sleep api.retryDelay w else w)
    refine ⟨?_, ?_⟩
    · rw [h.1]; cases k <;> simp
    · rw [h.2]; split <;> rfl

/-- While the provider keeps failing, the loop runs all its `k` iterations, each sending the
same request, and returns nothing. -/
theorem attemptLoop_fail (api : TranslationAPI) (net : Net) (config : ApiConfig)
    (content : String) (hkey : config.apiKey ≠ "") (k : Nat) :
    ∀ (attempt : Nat) (lastError : Option String) (w : World),
      (∀ j, j < k → replyContent (net (w.requests ++ List.replicate j (requestFor config content))
        (requestFor config content)) = none) →
      (attemptLoop api net config content k attempt lastError w).1.1 = none ∧
      (attemptLoop api net config content k attempt lastError w).2.requests =
        w.requests ++ List.replicate k (requestFor config content) := by
  induction k with
  | zero => intro attempt lastError w _; exact ⟨rfl, by simp [attemptLoop]⟩
  | succ k ih =>
    intro attempt lastError w hfail
    have hcont := callOpenAICompatibleAPI_content net config content w hkey
    have hworld := callOpenAICompatibleAPI_world net config content w hkey
    have h0 := hfail 0 (Nat.succ_pos k)
    simp only [List.replicate_zero, List.append_nil] at h0
    rcases attemptLoop_succ api net config content k attempt lastError w with
      ⟨c, hc, _⟩ | ⟨_, le1, w1, _, hreq, _, heq⟩
    · rw [hcont, h0] at hc; cases hc
    · rw [heq]
      rw [hworld] at hreq
      have h := ih (attempt + 1) le1 w1 (by
        intro j hj
        have := hfail (j + 1) (Nat.succ_lt_succ hj)
        rw [hreq]
        simpa [List.replicate_succ, List.append_assoc] using this)
      refine ⟨h.1, ?_⟩
      rw [h.2, hreq]
      simp [List.replicate_succ, List.append_assoc]

/-- When the provider fails `n` times and then answers with content `c`, a loop of more than
`n` iterations returns `c` after exactly `n + 1` requests. -/
theorem attemptLoop_success (api : TranslationAPI) (net : Net) (config : ApiConfig)
    (content c : String) (hkey : config.apiKey ≠ "") (n : Nat) :
    ∀ (k attempt : Nat) (lastError : Option String) (w : World), n < k →
      (∀ j, j < n → replyContent (net (w.requests ++ List.replicate j (requestFor config content))
        (requestFor config content)) = none) →
      replyContent (net (w.requests ++ List.replicate n (requestFor config content))
        (requestFor config content)) = some c →
      (attemptLoop api net config content k attempt lastError w).1.1 = some c ∧
      (attemptLoop api net config content k attempt lastError w).2.requests =
        w.requests ++ List.replicate (n + 1) (requestFor config content) := by
  induction n with
  | zero =>
    intro k attempt lastError w hk _ hsucc
    obtain ⟨k, rfl⟩ : ∃ k1, k = k1 + 1 := ⟨k - 1, by omega⟩
    have hcont := callOpenAICompatibleAPI_content net config content w hkey
    have hworld := callOpenAICompatibleAPI_world net config content w hkey
    simp only [List.replicate_zero, List.append_nil] at hsucc
    rcases attemptLoop_succ api net config content k attempt lastError w with
      ⟨c1, hc1, heq⟩ | ⟨hnone, _⟩
    · rw [hcont, hsucc] at hc1
      simp only [Option.some.injEq] at hc1
      subst hc1
      rw [heq, hworld]
      exact ⟨rfl, by simp⟩
    · rw [hcont, hsucc] at hnone; cases hnone
  | succ n ih =>
    intro k attempt lastError w hk hfail hsucc
    obtain ⟨k, rfl⟩ : ∃ k1, k = k1 + 1 := ⟨k - 1, by omega⟩
    have hcont := callOpenAICompatibleAPI_content net config content w hkey
    have hworld := callOpenAICompatibleAPI_world net config content w hkey
    have h0 := hfail 0 (Nat.succ_pos n)
    simp only [List.replicate_zero, List.append_nil] at h0
    rcases attemptLoop_succ api net config content k attempt lastError w with
      ⟨c1, hc1, _⟩ | ⟨_, le1, w1, _, hreq, _, heq⟩
    · rw [hcont, h0] at hc1; cases hc1
    · rw [heq]
      rw [hworld] at hreq
      have h := ih k (attempt + 1) le1 w1 (by omega) (by
        intro j hj
        have := hfail (j + 1) (Nat.succ_lt_succ hj)
        rw [hreq]
        simpa [List.replicate_succ, List.append_assoc] using this) (by
        rw [hreq]
        simpa [List.replicate_succ, List.append_assoc] using hsucc)
      refine ⟨h.1, ?_⟩
      rw [h.2, hreq]
      simp [List.replicate_succ, List.append_assoc]

/-- Against providers that never deliver content the loop returns nothing. -/
theorem attemptLoop_allFail (api : TranslationAPI) (net : Net) (config : ApiConfig)
    (content : String) (hfail : ∀ h r, replyContent (net h r) = none) (k attempt : Nat)
    (lastError : Option String) (w : World) :
    (attemptLoop api net config content k attempt lastError w).1.1 = none := by
  by_cases hkey : config.apiKey = ""
  · rw [(attemptLoop_noKey api net config content hkey k attempt lastError w).1]
  · exact (attemptLoop_fail api net config content hkey k attempt lastError w
      (fun j _ => hfail _ _)).1

/-- The method `translateText` never touches the filesystem or the console. -/
theorem translateText_frame (api : TranslationAPI) (net : Net) (content : String) (w : World) :
    (translateText api net content w).2.root = w.root ∧
    (translateText api net content w).2.events = w.events := by
  unfold translateText
  have h1 := attemptLoop_frame api net api.primaryConfig content api.maxRetries 1 none w
  rcases hp : attemptLoop api net api.primaryConfig content api.maxRetries 1 none w with
    ⟨⟨res, le⟩, w1⟩
  rw [hp] at h1
  cases res with
  | some r => exact h1
  | none =>
    cases hfc : api.fallbackConfig with
    | none => exact h1
    | some fc =>
      by_cases hk : fc.apiKey = ""
      · simp only [hk, ne_eq, not_true_eq_false, if_false]; exact h1
      · simp only [hk, ne_eq, not_false_eq_true, if_true]
        have h2 := attemptLoop_frame api net fc content api.maxRetries 1 le w1
        rcases hq : attemptLoop api net fc content api.maxRetries 1 le w1 with ⟨⟨res2, le2⟩, w2⟩
        rw [hq] at h2
        cases res2 with
        | some r => exact ⟨h2.1.trans h1.1, h2.2.trans h1.2⟩
        | none => exact ⟨h2.1.trans h1.1, h2.2.trans h1.2⟩

/-- Against providers that never deliver content `translateText` throws. -/
theorem translateText_allFail (api : TranslationAPI) (net : Net) (content : String) (w : World)
    (hfail : ∀ h r, replyContent (net h r) = none) :
    ∃ e, (translateText api net content w).1 = .error e := by
  unfold translateText
  have h1 := attemptLoop_allFail api net api.primaryConfig content hfail api.maxRetries 1 none w
  rcases hp : attemptLoop api net api.primaryConfig content api.maxRetries 1 none w with
    ⟨⟨res, le⟩, w1⟩
  rw [hp] at h1
  cases h1
  cases hfc : api.fallbackConfig with
  | none => exact ⟨_, rfl⟩
  | some fc =>
    by_cases hk : fc.apiKey = ""
    · simp only [hk, ne_eq, not_true_eq_false, if_false]; exact ⟨_, rfl⟩
    · simp only [hk, ne_eq, not_false_eq_true, if_true]
      have h2 := attemptLoop_allFail api net fc content hfail api.maxRetries 1 le w1
      rcases hq : attemptLoop api net fc content api.maxRetries 1 le w1 with ⟨⟨res2, le2⟩, w2⟩
      rw [hq] at h2
      cases h2
      exact ⟨_, rfl⟩

/-- With a credential, a loop of `k` iterations sends between one and `k` copies of the same
request. -/
theorem attemptLoop_requests (api : TranslationAPI) (net : Net) (config : ApiConfig)
    (content : String) (hkey : config.apiKey ≠ "") (k : Nat) :
    ∀ (attempt : Nat) (lastError : Option String) (w : World),
      ∃ M, M ≤ k ∧ (0 < k → 0 < M) ∧
        (attemptLoop api net config content k attempt lastError w).2.requests =
          w.requests ++ List.replicate M (requestFor config content) := by
  induction k with
  | zero => intro attempt lastError w; exact ⟨0, le_refl _, fun h => h, by simp [attemptLoop]⟩
  | succ k ih =>
    intro attempt lastError w
    have hworld := callOpenAICompatibleAPI_world net config content w hkey
    rcases attemptLoop_succ api net config content k attempt lastError w with
      ⟨c, _, heq⟩ | ⟨_, le1, w1, _, hreq, _, heq⟩
    · refine ⟨1, by omega, fun _ => Nat.one_pos, ?_⟩
      rw [heq, hworld]
      rfl
    · obtain ⟨M, hM, _, hMreq⟩ := ih (attempt + 1) le1 w1
      refine ⟨M + 1, by omega, fun _ => Nat.succ_pos M, ?_⟩
      rw [heq, hMreq, hreq, hworld]
      simp [List.replicate_succ, List.append_assoc]

theorem translateText_of_primary (api : TranslationAPI) (net : Net) (content c : String)
    (w : World)
    (h : (attemptLoop api net api.primaryConfig content api.maxRetries 1 none w).1.1 = some c) :
    translateText api net content w =
      (.ok c, (attemptLoop api net api.primaryConfig content api.maxRetries 1 none w).2) := by
  unfold translateText
  rcases hp : attemptLoop api net api.primaryConfig content api.maxRetries 1 none w with
    ⟨⟨res, le⟩, w1⟩
  rw [hp] at h
  simp only at h
  subst h
  rfl

theorem translateText_of_fallback (api : TranslationAPI) (net : Net) (content : String)
    (w : World) (fc : ApiConfig)
    (h : (attemptLoop api net api.primaryConfig content api.maxRetries 1 none w).1.1 = none)
    (hfc : api.fallbackConfig = some fc) (hk : fc.apiKey ≠ "") :
    (translateText api net content w).2 =
      (attemptLoop api net fc content api.maxRetries 1
        (attemptLoop api net api.primaryConfig content api.maxRetries 1 none w).1.2
        (attemptLoop api net api.primaryConfig content api.maxRetries 1 none w).2).2 ∧
    ∀ c, (attemptLoop api net fc content api.maxRetries 1
        (attemptLoop api net api.primaryConfig content api.maxRetries 1 none w).1.2
        (attemptLoop api net api.primaryConfig content api.maxRetries 1 none w).2).1.1 = some c →
      (translateText api net content w).1 = .ok c := by
  unfold translateText
  rcases hp : attemptLoop api net api.primaryConfig content api.maxRetries 1 none w with
    ⟨⟨res, le⟩, w1⟩
  rw [hp] at h
  simp only at h
  subst h
  simp only [hfc, hk, ne_eq, not_false_eq_true, if_true]
  rcases hq : attemptLoop api net fc content api.maxRetries 1 le w1 with ⟨⟨res2, le2⟩, w2⟩
  cases res2 with
  | none => exact ⟨rfl, fun c hc => by cases hc⟩
  | some r => exact ⟨rfl, fun c hc => by cases hc; rfl⟩

/-! ## Lemmas on the runner -/

/-- The method `TranslationAPI.translateFile` always returns a boolean, prints no per-file
line, and sends what its call of `translateText` sends (nothing if the input is unreadable). -/
theorem apiTranslateFile_spec (api : TranslationAPI) (net : Net)
    (inputPath outputPath : Path) (w : World) :
    (∃ b, (api.translateFile net inputPath outputPath w).1 = .ok b) ∧
    (api.translateFile net inputPath outputPath w).2.events = w.events ∧
    (((api.translateFile net inputPath outputPath w).1 = .ok false ∧
        (api.translateFile net inputPath outputPath w).2.requests = w.requests) ∨
      ∃ content, readFileSync w.root inputPath = .ok content ∧
        (api.translateFile net inputPath outputPath w).2.requests =
          (translateText api net content w).2.requests ∧
        ((api.translateFile net inputPath outputPath w).1 = .ok true →
          ∃ c, (translateText api net content w).1 = .ok c)) := by
  unfold TranslationAPI.translateFile translateFileBody
  cases hread : readFileSync w.root inputPath with
  | error e => exact ⟨⟨false, rfl⟩, rfl, Or.inl ⟨rfl, rfl⟩⟩
  | ok content =>
    have hframe := translateText_frame api net content w
    rcases ht : translateText api net content w with ⟨res, w1⟩
    rw [ht] at hframe
    have hreq : w1.requests = (translateText api net content w).2.requests := by rw [ht]
    simp only [ht]
    cases res with
    | error e =>
      exact ⟨⟨false, rfl⟩, hframe.2, Or.inr ⟨content, rfl, hreq, fun h => by cases h⟩⟩
    | ok c =>
      have hc1 : ∃ c, (translateText api net content w).1 = .ok c := ⟨c, by rw [ht]⟩
      simp only
      by_cases hc : c = ""
      · simp only [hc, ne_eq, not_true_eq_false, if_false]
        exact ⟨⟨false, rfl⟩, hframe.2, Or.inr ⟨content, rfl, hreq, fun _ => hc1⟩⟩
      · simp only [hc, ne_eq, not_false_eq_true, if_true]
        cases (if ¬ existsSync w1.root outputPath.dropLast = true
            then mkdirSync w1.now w1.root outputPath.dropLast else Except.ok w1.root) with
        | error e =>
          exact ⟨⟨false, rfl⟩, hframe.2, Or.inr ⟨content, rfl, hreq, fun _ => hc1⟩⟩
        | ok root1 =>
          simp only
          cases writeFileSync w1.now c root1 outputPath with
          | error e =>
            exact ⟨⟨false, rfl⟩, hframe.2, Or.inr ⟨content, rfl, hreq, fun _ => hc1⟩⟩
          | ok root2 =>
            exact ⟨⟨true, rfl⟩, hframe.2, Or.inr ⟨content, rfl, hreq, fun _ => hc1⟩⟩

/-- The method `LocalTranslator.translateFile` in terms of the boolean returned by the
client: one counter goes up by one, two lines are printed. -/
theorem localTranslateFile_spec (t : LocalTranslator) (net : Net) (file : FileTask)
    (w : World) :
    ∃ b, (t.translationAPI.translateFile net file.input file.output
        { w with events := w.events ++ [Event.translating file.input] }).1 = .ok b ∧
      t.translateFile net file w =
        (b,
         (if b then { t with translatedCount := t.translatedCount + 1 }
          else { t with failedCount := t.failedCount + 1 }),
         { (t.translationAPI.translateFile net file.input file.output
              { w with events := w.events ++ [Event.translating file.input] }).2 with
           events := w.events ++ [Event.translating file.input] ++
             [if b then Event.succeeded file.output else Event.failed file.input] }) := by
  obtain ⟨⟨b, hb⟩, hev, _⟩ := apiTranslateFile_spec t.translationAPI net file.input
    file.output { w with events := w.events ++ [Event.translating file.input] }
  refine ⟨b, hb, ?_⟩
  unfold LocalTranslator.translateFile
  rcases hr : t.translationAPI.translateFile net file.input file.output
    { w with events := w.events ++ [Event.translating file.input] } with ⟨res, w1⟩
  rw [hr] at hb hev
  simp only at hb hev
  subst hb
  cases b <;> simp [hr, hev]

/-- What one call of `LocalTranslator.translateFile` does to the counters and the console. -/
theorem localTranslateFile_step (t : LocalTranslator) (net : Net) (file : FileTask)
    (w : World) :
    (t.translateFile net file w).2.1.translationAPI = t.translationAPI ∧
    (t.translateFile net file w).2.1.skippedCount = t.skippedCount ∧
    (t.translateFile net file w).2.1.translatedCount + (t.translateFile net file w).2.1.failedCount =
      t.translatedCount + t.failedCount + 1 ∧
    (t.translateFile net file w).2.2.events.filterMap Event.translatingInput =
      w.events.filterMap Event.translatingInput ++ [file.input] := by
  obtain ⟨b, _, heq⟩ := localTranslateFile_spec t net file w
  rw [heq]
  cases b
  · refine ⟨rfl, rfl, ?_, ?_⟩
    · simp only [Bool.false_eq_true, if_false]; omega
    · simp [List.filterMap_append, Event.translatingInput]
  · refine ⟨rfl, rfl, ?_, ?_⟩
    · simp only [if_true]; omega
    · simp [List.filterMap_append, Event.translatingInput]

/-- The loop of `run`: every file is handed to `translateFile` once, in order, and counted
once. -/
theorem translateLoop_spec (net : Net) (files : List FileTask) :
    ∀ (t : LocalTranslator) (w : World),
      (translateLoop net files t w).1.translationAPI = t.translationAPI ∧
      (translateLoop net files t w).1.skippedCount = t.skippedCount ∧
      (translateLoop net files t w).1.translatedCount + (translateLoop net files t w).1.failedCount =
        t.translatedCount + t.failedCount + files.length ∧
      (translateLoop net files t w).2.events.filterMap Event.translatingInput =
        w.events.filterMap Event.translatingInput ++ files.map FileTask.input := by
  induction files with
  | nil => intro t w; exact ⟨rfl, rfl, rfl, by simp [translateLoop]⟩
  | cons file files ih =>
    intro t w
    obtain ⟨h1, h2, h3, h4⟩ := localTranslateFile_step t net file w
    rcases hr : t.translateFile net file w with ⟨b, t1, w1⟩
    rw [hr] at h1 h2 h3 h4
    simp only at h1 h2 h3 h4
    have hstep : translateLoop net (file :: files) t w =
        translateLoop net files t1
          (if files.length > 0 then sleep CONFIG.api.retryDelay w1 else w1) := by
      simp [translateLoop, hr]
    rw [hstep]
    obtain ⟨i1, i2, i3, i4⟩ := ih t1
      (if files.length > 0 then sleep CONFIG.api.retryDelay w1 else w1)
    have hev : (if files.length > 0 then sleep CONFIG.api.retryDelay w1 else w1).events =
        w1.events := by split <;> rfl
    refine ⟨i1.trans h1, i2.trans h2, ?_, ?_⟩
    · rw [i3, List.length_cons]; omega
    · rw [i4, hev, h4]; simp

/-- The method `createCategoryFiles` sends nothing and prints no per-file line. -/
theorem createCategoryLoop_frame (outputDir : Path) (items : List String) :
    ∀ w : World,
      (createCategoryLoop outputDir items w).2.requests = w.requests ∧
      (createCategoryLoop outputDir items w).2.events = w.events := by
  induction items with
  | nil => intro w; exact ⟨rfl, rfl⟩
  | cons item items ih =>
    intro w
    unfold createCategoryLoop
    simp only
    cases statSync w.root (outputDir ++ [item]) with
    | error e => exact ⟨rfl, rfl⟩
    | ok stat =>
      simp only
      by_cases hd : stat.isDirectory = true
      · simp only [hd, if_true]
        cases writeFileSync w.now (stringifyCategoryContent (categoryLabel item)) w.root
            (outputDir ++ [item] ++ ["_category_.json"]) with
        | error e => exact ⟨rfl, rfl⟩
        | ok root1 => exact ih _
      · simp only [hd, if_false]
        exact ih w

theorem createCategoryFiles_frame (w : World) :
    (createCategoryFiles w).2.requests = w.requests ∧
    (createCategoryFiles w).2.events = w.events := by
  unfold createCategoryFiles
  simp only
  split
  · cases readdirSync w.root CONFIG.outputDir with
    | error e => exact ⟨rfl, rfl⟩
    | ok items => exact createCategoryLoop_frame _ _ w
  · exact ⟨rfl, rfl⟩

/-- The method `run` once the list of stale files is known: the state in which it ends is the
state after the loop followed by `createCategoryFiles` (or the initial one if the list is
empty). -/
theorem run_state (t : LocalTranslator) (net : Net) (w : World) (items : Entries)
    (stale : List FileTask) (hitems : readdirSync w.root CONFIG.sourceDir = .ok items)
    (hstale : filterNeedsTranslation t w.root (getAllFiles items []) = .ok stale) :
    (run t net w).2.1 = (translateLoop net stale t w).1 ∧
    (run t net w).2.2.requests = (translateLoop net stale t w).2.requests ∧
    (run t net w).2.2.events = (translateLoop net stale t w).2.events ∧
    (stale ≠ [] → (run t net w).2.2 = (createCategoryFiles (translateLoop net stale t w).2).2 ∧
      (((createCategoryFiles (translateLoop net stale t w).2).1 = .ok () ∧
        (run t net w).1 =
          if (translateLoop net stale t w).1.failedCount > 0 then .exited 1 else .returned) ∨
       (∃ e, (createCategoryFiles (translateLoop net stale t w).2).1 = .error e ∧
        (run t net w).1 = .threw e))) ∧
    (stale = [] → (run t net w).1 = .returned) := by
  cases stale with
  | nil =>
    have hrun : run t net w = (.returned, t, w) := by
      unfold run
      simp [hitems, hstale]
    rw [hrun]
    exact ⟨rfl, rfl, rfl, fun h => absurd rfl h, fun _ => rfl⟩
  | cons file files =>
    have hf := createCategoryFiles_frame (translateLoop net (file :: files) t w).2
    rcases hc : createCategoryFiles (translateLoop net (file :: files) t w).2 with ⟨res, w2⟩
    rw [hc] at hf
    cases res with
    | error e =>
      have hrun : run t net w = (.threw e, (translateLoop net (file :: files) t w).1, w2) := by
        unfold run
        simp [hitems, hstale, hc]
      rw [hrun]
      exact ⟨rfl, hf.1, hf.2, fun _ => ⟨rfl, Or.inr ⟨e, rfl, rfl⟩⟩, fun h => by cases h⟩
    | ok u =>
      have hrun : run t net w =
          ((if (translateLoop net (file :: files) t w).1.failedCount > 0 then .exited 1
            else .returned), (translateLoop net (file :: files) t w).1, w2) := by
        unfold run
        simp only [hitems, hstale, hc, List.length_cons, Nat.add_one_ne_zero, if_false]
        split <;> rfl
      rw [hrun]
      exact ⟨rfl, hf.1, hf.2, fun _ => ⟨rfl, Or.inl ⟨rfl, rfl⟩⟩, fun h => by cases h⟩

/-- How `run` can end for a translator that has counted no failure yet: a normal return
means no file failed, and the only exit code `run` itself uses is 1, for a failed file. -/
theorem run_result (t : LocalTranslator) (net : Net) (w : World) (ht : t.failedCount = 0) :
    ((run t net w).1 = .returned → (run t net w).2.1.failedCount = 0) ∧
    (∀ code, (run t net w).1 = .exited code → code = 1 ∧ (run t net w).2.1.failedCount > 0) := by
  cases hitems : readdirSync w.root CONFIG.sourceDir with
  | error e =>
    have hrun : run t net w = (.threw e, t, w) := by unfold run; simp [hitems]
    rw [hrun]
    exact ⟨fun h => (by cases h), fun c h => (by cases h)⟩
  | ok items =>
    cases hstale : filterNeedsTranslation t w.root (getAllFiles items []) with
    | error e =>
      have hrun : run t net w = (.threw e, t, w) := by unfold run; simp [hitems, hstale]
      rw [hrun]
      exact ⟨fun h => (by cases h), fun c h => (by cases h)⟩
    | ok stale =>
      obtain ⟨h1, _, _, h4, h5⟩ := run_state t net w items stale hitems hstale
      cases stale with
      | nil =>
        have h5 := h5 rfl
        rw [h1, h5]
        exact ⟨fun _ => ht, fun c h => (by cases h)⟩
      | cons file files =>
        obtain ⟨_, h4 | ⟨e, _, h4⟩⟩ := h4 (by simp)
        · rw [h1, h4.2]
          by_cases hpos : (translateLoop net (file :: files) t w).1.failedCount > 0
          · rw [if_pos hpos]
            exact ⟨fun h => (by cases h), fun c h => (by cases h; exact ⟨rfl, hpos⟩)⟩
          · rw [if_neg hpos]
            exact ⟨fun _ => (by omega), fun c h => (by cases h)⟩
        · rw [h4]
          exact ⟨fun h => (by cases h), fun c h => (by cases h)⟩

/-- With no credential for the primary provider, `translateText` sends requests to the
fallback provider only, and throws without sending anything when the fallback has no
credential either. -/
theorem translateText_noPrimaryKey (api : TranslationAPI) (net : Net) (content : String)
    (w : World) (hkey : api.primaryConfig.apiKey = "") :
    (∃ added, (translateText api net content w).2.requests = w.requests ++ added ∧
      ∀ r ∈ added, fromFallback api r) ∧
    ((∀ fc, api.fallbackConfig = some fc → fc.apiKey = "") →
      (∃ e, (translateText api net content w).1 = .error e) ∧
      (0 < api.maxRetries → (translateText api net content w).1 = .error "API密钥未配置") ∧
      (translateText api net content w).2.requests = w.requests) := by
  have h1 := attemptLoop_noKey api net api.primaryConfig content hkey api.maxRetries 1 none w
  unfold translateText
  rcases hp : attemptLoop api net api.primaryConfig content api.maxRetries 1 none w with
    ⟨⟨res, le⟩, w1⟩
  rw [hp] at h1
  obtain ⟨h1a, h1b⟩ := h1
  simp only [Prod.mk.injEq] at h1a h1b
  obtain ⟨hres, hle⟩ := h1a
  subst hres
  have hlast : 0 < api.maxRetries → le.getD "所有翻译API都失败了" = "API密钥未配置" := by
    intro hpos
    rw [hle, if_neg (by omega)]
    rfl
  cases hfc : api.fallbackConfig with
  | none =>
    exact ⟨⟨[], (by simp [h1b]), fun r hr => (by cases hr)⟩,
      fun _ => ⟨⟨_, rfl⟩, fun hpos => (by simp [hlast hpos]), h1b⟩⟩
  | some fc =>
    by_cases hk : fc.apiKey = ""
    · simp only [hk, ne_eq, not_true_eq_false, if_false]
      exact ⟨⟨[], (by simp [h1b]), fun r hr => (by cases hr)⟩,
        fun _ => ⟨⟨_, rfl⟩, fun hpos => (by simp [hlast hpos]), h1b⟩⟩
    · simp only [hk, ne_eq, not_false_eq_true, if_true]
      obtain ⟨M, _, _, hM⟩ := attemptLoop_requests api net fc content hk api.maxRetries 1 le w1
      rcases hq : attemptLoop api net fc content api.maxRetries 1 le w1 with ⟨⟨res2, le2⟩, w2⟩
      rw [hq] at hM
      simp only at hM
      have hadd : ∀ r ∈ List.replicate M (requestFor fc content), fromFallback api r := by
        intro r hr
        exact ⟨fc, content, hfc, hk, (List.mem_replicate.mp hr).2⟩
      refine ⟨⟨List.replicate M (requestFor fc content), ?_, hadd⟩,
        fun hno => absurd (hno fc rfl) hk⟩
      cases res2 <;> simp [hM, h1b]

/-- One file, with no credential for the primary provider: requests go to the fallback
only, and without a fallback credential the file is counted as failed. -/
theorem localTranslateFile_noPrimaryKey (t : LocalTranslator) (net : Net)
    (file : FileTask) (w : World) (hkey : t.translationAPI.primaryConfig.apiKey = "") :
    (∃ added, (t.translateFile net file w).2.2.requests = w.requests ++ added ∧
      ∀ r ∈ added, fromFallback t.translationAPI r) ∧
    ((∀ fc, t.translationAPI.fallbackConfig = some fc → fc.apiKey = "") →
      (t.translateFile net file w).2.1.failedCount = t.failedCount + 1 ∧
      (t.translateFile net file w).2.1.translatedCount = t.translatedCount ∧
      (t.translateFile net file w).2.2.requests = w.requests) := by
  obtain ⟨b, hb, heq⟩ := localTranslateFile_spec t net file w
  obtain ⟨_, _, hcase⟩ := apiTranslateFile_spec t.translationAPI net file.input
    file.output { w with events := w.events ++ [Event.translating file.input] }
  rw [heq]
  rcases hcase with ⟨hfalse, hreq⟩ | ⟨content, _, hreq, hok⟩
  · rw [hfalse] at hb
    cases hb
    exact ⟨⟨[], by simpa using hreq, fun r hr => (by cases hr)⟩, fun _ => ⟨rfl, rfl, hreq⟩⟩
  · obtain ⟨⟨added, hadd, hfrom⟩, hno⟩ := translateText_noPrimaryKey t.translationAPI net content
      { w with events := w.events ++ [Event.translating file.input] } hkey
    refine ⟨⟨added, hreq.trans hadd, hfrom⟩, fun h => ?_⟩
    obtain ⟨⟨e, he⟩, _, hsame⟩ := hno h
    have hbf : b = false := by
      cases b
      · rfl
      · obtain ⟨c, hc⟩ := hok hb
        rw [he] at hc
        cases hc
    subst hbf
    exact ⟨rfl, rfl, hreq.trans hsame⟩

/-- The loop of `run`, with no credential for the primary provider. -/
theorem translateLoop_noPrimaryKey (net : Net) (files : List FileTask) :
    ∀ (t : LocalTranslator) (w : World), t.translationAPI.primaryConfig.apiKey = "" →
      (∃ added, (translateLoop net files t w).2.requests = w.requests ++ added ∧
        ∀ r ∈ added, fromFallback t.translationAPI r) ∧
      ((∀ fc, t.translationAPI.fallbackConfig = some fc → fc.apiKey = "") →
        (translateLoop net files t w).1.failedCount = t.failedCount + files.length ∧
        (translateLoop net files t w).1.translatedCount = t.translatedCount ∧
        (translateLoop net files t w).2.requests = w.requests) := by
  induction files with
  | nil =>
    intro t w _
    exact ⟨⟨[], by simp [translateLoop], fun r hr => (by cases hr)⟩, fun _ => ⟨rfl, rfl, rfl⟩⟩
  | cons file files ih =>
    intro t w hkey
    obtain ⟨⟨added, hadd, hfrom⟩, hno⟩ :=
      localTranslateFile_noPrimaryKey t net file w hkey
    obtain ⟨hapi, _, _, _⟩ := localTranslateFile_step t net file w
    rcases hr : t.translateFile net file w with ⟨b, t1, w1⟩
    rw [hr] at hadd hno hapi
    simp only at hadd hno hapi
    have hstep : translateLoop net (file :: files) t w =
        translateLoop net files t1
          (if files.length > 0 then sleep CONFIG.api.retryDelay w1 else w1) := by
      simp [translateLoop, hr]
    have hreq : (if files.length > 0 then sleep CONFIG.api.retryDelay w1 else w1).requests =
        w1.requests := by split <;> rfl
    rw [hstep]
    obtain ⟨⟨added2, hadd2, hfrom2⟩, hno2⟩ := ih t1
      (if files.length > 0 then sleep CONFIG.api.retryDelay w1 else w1) (by rw [hapi]; exact hkey)
    rw [hapi] at hfrom2 hno2
    refine ⟨⟨added ++ added2, ?_, ?_⟩, fun h => ?_⟩
    · rw [hadd2, hreq, hadd, List.append_assoc]
    · intro r hr
      rcases List.mem_append.mp hr with h1 | h2
      · exact hfrom r h1
      · exact hfrom2 r h2
    · obtain ⟨a1, a2, a3⟩ := hno h
      obtain ⟨b1, b2, b3⟩ := hno2 h
      refine ⟨?_, ?_, ?_⟩
      · rw [b1, a1, List.length_cons]; omega
      · rw [b2, a2]
      · rw [b3, hreq, a3]

/-- The method `run` never changes `skippedCount`. -/
theorem run_skippedCount (t : LocalTranslator) (net : Net) (w : World) :
    (run t net w).2.1.skippedCount = t.skippedCount := by
  cases hitems : readdirSync w.root CONFIG.sourceDir with
  | error e =>
    have hrun : run t net w = (.threw e, t, w) := by unfold run; simp [hitems]
    rw [hrun]
  | ok items =>
    cases hstale : filterNeedsTranslation t w.root (getAllFiles items []) with
    | error e =>
      have hrun : run t net w = (.threw e, t, w) := by unfold run; simp [hitems, hstale]
      rw [hrun]
    | ok stale =>
      obtain ⟨h1, _⟩ := run_state t net w items stale hitems hstale
      rw [h1]
      exact (translateLoop_spec net stale t w).2.1

/-! ## Theorems -/

/-! ### Change detection -/

/-- C1. In default mode `needsTranslation` returns true for every task whose destination is
absent; and for a task whose source exists it returns a boolean that is true exactly when the
destination does not exist or its modification time is strictly older than the source's, so
that it is false when the destination exists with a modification time not older than the
source's. -/
theorem needsTranslation_default (t : LocalTranslator) (root : Node) (file : FileTask)
    (hmode : t.needsTranslationReplaced = false) :
    (existsSync root file.output = false → t.needsTranslation root file = .ok true) ∧
    (∀ src, lookup root file.input = some src →
      ∃ b, t.needsTranslation root file = .ok b ∧
        (b = true ↔ (existsSync root file.output = false ∨
          ∃ out, lookup root file.output = some out ∧ out.mtime < src.mtime)) ∧
        (∀ out, lookup root file.output = some out → src.mtime ≤ out.mtime → b = false)) := by
  unfold LocalTranslator.needsTranslation CodecWiki.needsTranslation
  rw [hmode]
  constructor
  · intro hex
    simp [hex]
  · intro src hsrc
    cases hout : lookup root file.output with
    | none =>
      refine ⟨true, ?_, ?_, ?_⟩ <;> simp [existsSync, hout]
    | some out =>
      refine ⟨decide (out.mtime < src.mtime), ?_, ?_, ?_⟩
      · simp [existsSync, statSync, hout, hsrc]
      · simp [existsSync, hout]
      · intro o ho hle
        cases ho
        simpa using hle

/-- C1, instance: `docs/a.md` (time 10) is stale while it has no translation, and is not
stale against a translation of time 20. -/
theorem needsTranslation_default_witness :
    (LocalTranslator.new TranslationAPI.new).needsTranslation twoStaleWorld.root
        ⟨["docs", "a.md"], ["i18n", "zh", "docusaurus-plugin-content-docs", "current", "a.md"],
          ["a.md"]⟩ = .ok true ∧
    ∃ b, (LocalTranslator.new TranslationAPI.new).needsTranslation oneStaleWorld.root
        ⟨["docs", "b.md"], ["i18n", "zh", "docusaurus-plugin-content-docs", "current", "b.md"],
          ["b.md"]⟩ = .ok b ∧
      (b = true ↔ (existsSync oneStaleWorld.root
          ["i18n", "zh", "docusaurus-plugin-content-docs", "current", "b.md"] = false ∨
        ∃ out, lookup oneStaleWorld.root
          ["i18n", "zh", "docusaurus-plugin-content-docs", "current", "b.md"] = some out ∧
          out.mtime < (Node.file 10 "B").mtime)) ∧
      (∀ out, lookup oneStaleWorld.root
          ["i18n", "zh", "docusaurus-plugin-content-docs", "current", "b.md"] = some out →
        (Node.file 10 "B").mtime ≤ out.mtime → b = false) :=
  ⟨(needsTranslation_default (LocalTranslator.new TranslationAPI.new) twoStaleWorld.root
      ⟨["docs", "a.md"], ["i18n", "zh", "docusaurus-plugin-content-docs", "current", "a.md"],
        ["a.md"]⟩ rfl).1 (by decide),
   (needsTranslation_default (LocalTranslator.new TranslationAPI.new) oneStaleWorld.root
      ⟨["docs", "b.md"], ["i18n", "zh", "docusaurus-plugin-content-docs", "current", "b.md"],
        ["b.md"]⟩ rfl).2 (.file 10 "B") rfl⟩

/-! ### Failure of both providers -/

/-- C3. When no attempt on either provider ever delivers content, `TranslationAPI.translateFile`
returns `false` without throwing and leaves the filesystem as it was; in particular what is
found at the output path (nothing, or the previous file) is unchanged. -/
theorem translateFile_allFail (api : TranslationAPI) (net : Net) (inputPath outputPath : Path)
    (w : World) (hfail : ∀ h r, replyContent (net h r) = none) :
    (api.translateFile net inputPath outputPath w).1 = .ok false ∧
    (api.translateFile net inputPath outputPath w).2.root = w.root ∧
    lookup (api.translateFile net inputPath outputPath w).2.root outputPath =
      lookup w.root outputPath := by
  have key : (api.translateFile net inputPath outputPath w).1 = .ok false ∧
      (api.translateFile net inputPath outputPath w).2.root = w.root := by
    unfold TranslationAPI.translateFile translateFileBody
    cases hread : readFileSync w.root inputPath with
    | error e => exact ⟨rfl, rfl⟩
    | ok content =>
      obtain ⟨e, he⟩ := translateText_allFail api net content w hfail
      have hframe := translateText_frame api net content w
      rcases ht : translateText api net content w with ⟨res, w1⟩
      rw [ht] at he hframe
      simp only at he
      subst he
      simp only [ht]
      exact ⟨trivial, hframe.1⟩
  exact ⟨key.1, key.2, by rw [key.2]⟩

/-- C3, instance: a network that is down, an existing translation of `docs/a.md`. -/
theorem translateFile_allFail_witness :
    (TranslationAPI.new.translateFile (fun _ _ => .networkError "down") ["docs", "a.md"]
      ["out", "a.md"]
      ⟨.dir 0 [("docs", .dir 0 [("a.md", .file 10 "A")]), ("out", .dir 0 [("a.md", .file 5 "甲")])],
        0, [], []⟩).1 = .ok false ∧
    (TranslationAPI.new.translateFile (fun _ _ => .networkError "down") ["docs", "a.md"]
      ["out", "a.md"]
      ⟨.dir 0 [("docs", .dir 0 [("a.md", .file 10 "A")]), ("out", .dir 0 [("a.md", .file 5 "甲")])],
        0, [], []⟩).2.root =
      .dir 0 [("docs", .dir 0 [("a.md", .file 10 "A")]), ("out", .dir 0 [("a.md", .file 5 "甲")])] ∧
    lookup (TranslationAPI.new.translateFile (fun _ _ => .networkError "down") ["docs", "a.md"]
      ["out", "a.md"]
      ⟨.dir 0 [("docs", .dir 0 [("a.md", .file 10 "A")]), ("out", .dir 0 [("a.md", .file 5 "甲")])],
        0, [], []⟩).2.root ["out", "a.md"] =
      lookup (.dir 0 [("docs", .dir 0 [("a.md", .file 10 "A")]),
        ("out", .dir 0 [("a.md", .file 5 "甲")])]) ["out", "a.md"] :=
  translateFile_allFail TranslationAPI.new (fun _ _ => .networkError "down") ["docs", "a.md"]
    ["out", "a.md"]
    ⟨.dir 0 [("docs", .dir 0 [("a.md", .file 10 "A")]), ("out", .dir 0 [("a.md", .file 5 "甲")])],
      0, [], []⟩ (fun _ _ => rfl)

/-! ### Retry and fallback -/

/-- C2. Let the primary provider (which has a credential and has not been called before) fail
on its first `N - 1` calls and deliver the content `c` on call `N`, with `N ≥ 1`.  If
`N ≤ maxRetries`, `translateText` returns `c` and has sent exactly `N` requests, all to the
primary provider.  If `N > maxRetries` and a fallback provider with a credential is
configured, `translateText` sends exactly `maxRetries` requests to the primary provider and
then the same document to the fallback provider (at least once when `maxRetries > 0`, at most
`maxRetries` times); and if the fallback, told apart from the primary by its request, fails
on its first `K - 1` calls and delivers `c1` on call `K ≤ maxRetries`, the result is `c1`
after exactly `K` fallback requests. -/
theorem translateText_retry_fallback (api : TranslationAPI) (net : Net) (content : String)
    (w : World) (N : Nat) (c : String) (hN : 1 ≤ N) (hkey : api.primaryConfig.apiKey ≠ "")
    (hfresh : w.requests.count (requestFor api.primaryConfig content) = 0)
    (hfail : ∀ h, h.count (requestFor api.primaryConfig content) < N - 1 →
      replyContent (net h (requestFor api.primaryConfig content)) = none)
    (hsucc : ∀ h, h.count (requestFor api.primaryConfig content) = N - 1 →
      replyContent (net h (requestFor api.primaryConfig content)) = some c) :
    (N ≤ api.maxRetries →
      (translateText api net content w).1 = .ok c ∧
      (translateText api net content w).2.requests =
        w.requests ++ List.replicate N (requestFor api.primaryConfig content)) ∧
    (api.maxRetries < N → ∀ fc, api.fallbackConfig = some fc → fc.apiKey ≠ "" →
      (∃ M, M ≤ api.maxRetries ∧ (0 < api.maxRetries → 0 < M) ∧
        (translateText api net content w).2.requests =
          w.requests ++ List.replicate api.maxRetries (requestFor api.primaryConfig content) ++
            List.replicate M (requestFor fc content)) ∧
      (∀ K c1, 1 ≤ K → K ≤ api.maxRetries →
        requestFor fc content ≠ requestFor api.primaryConfig content →
        w.requests.count (requestFor fc content) = 0 →
        (∀ h, h.count (requestFor fc content) < K - 1 →
          replyContent (net h (requestFor fc content)) = none) →
        (∀ h, h.count (requestFor fc content) = K - 1 →
          replyContent (net h (requestFor fc content)) = some c1) →
        (translateText api net content w).1 = .ok c1 ∧
        (translateText api net content w).2.requests =
          w.requests ++ List.replicate api.maxRetries (requestFor api.primaryConfig content) ++
            List.replicate K (requestFor fc content))) := by
  have hcount : ∀ j, (w.requests ++ List.replicate j (requestFor api.primaryConfig content)).count
      (requestFor api.primaryConfig content) = j := by
    intro j
    rw [List.count_append, hfresh, List.count_replicate_self, Nat.zero_add]
  constructor
  · intro hle
    obtain ⟨n, rfl⟩ : ∃ n, N = n + 1 := ⟨N - 1, by omega⟩
    have h := attemptLoop_success api net api.primaryConfig content c hkey n api.maxRetries 1
      none w (by omega)
      (fun j hj => hfail _ (by rw [hcount]; simpa using hj))
      (hsucc _ (by rw [hcount]; simp))
    rw [translateText_of_primary api net content c w h.1]
    exact ⟨rfl, h.2⟩
  · intro hlt fc hfc hk
    have h := attemptLoop_fail api net api.primaryConfig content hkey api.maxRetries 1 none w
      (fun j hj => hfail _ (by rw [hcount]; omega))
    obtain ⟨hw, hres⟩ := translateText_of_fallback api net content w fc h.1 hfc hk
    constructor
    · obtain ⟨M, hM, hpos, hreq⟩ := attemptLoop_requests api net fc content hk api.maxRetries 1
        (attemptLoop api net api.primaryConfig content api.maxRetries 1 none w).1.2
        (attemptLoop api net api.primaryConfig content api.maxRetries 1 none w).2
      exact ⟨M, hM, hpos, by rw [hw, hreq, h.2]⟩
    · intro K c1 hK hKle hne hfresh2 hfail2 hsucc2
      obtain ⟨n, rfl⟩ : ∃ n, K = n + 1 := ⟨K - 1, by omega⟩
      have hcount2 : ∀ j,
          ((attemptLoop api net api.primaryConfig content api.maxRetries 1 none w).2.requests ++
            List.replicate j (requestFor fc content)).count (requestFor fc content) = j := by
        intro j
        have hne2 : ¬ (requestFor api.primaryConfig content == requestFor fc content) = true := by
          intro hbeq
          exact hne (beq_iff_eq.mp hbeq).symm
        rw [h.2, List.count_append, List.count_append, hfresh2, List.count_replicate_self,
          List.count_replicate, if_neg hne2]
        simp
      have h2 := attemptLoop_success api net fc content c1 hk n api.maxRetries 1
        (attemptLoop api net api.primaryConfig content api.maxRetries 1 none w).1.2
        (attemptLoop api net api.primaryConfig content api.maxRetries 1 none w).2 (by omega)
        (fun j hj => hfail2 _ (by rw [hcount2]; simpa using hj))
        (hsucc2 _ (by rw [hcount2]; simp))
      exact ⟨hres c1 h2.1, by rw [hw, h2.2, h.2]⟩

/-- C2, instances: the primary provider fails once and then answers, and `translateText`
returns the answer after two primary requests; the primary provider fails three times, and
`translateText` returns the fallback's answer after three primary requests and one fallback
request. -/
theorem translateText_retry_fallback_witness :
    ((translateText apiWithFallback
      (mockNet "https://api.deepseek.com/v1/chat/completions" 1 "你好" "备用") "Hello"
      emptyWorld).1 = .ok "你好" ∧
    (translateText apiWithFallback
      (mockNet "https://api.deepseek.com/v1/chat/completions" 1 "你好" "备用") "Hello"
      emptyWorld).2.requests =
      [] ++ List.replicate 2 (requestFor apiWithFallback.primaryConfig "Hello")) ∧
    ((translateText apiWithFallback
      (mockNet "https://api.deepseek.com/v1/chat/completions" 3 "你好" "备用") "Hello"
      emptyWorld).1 = .ok "备用" ∧
    (translateText apiWithFallback
      (mockNet "https://api.deepseek.com/v1/chat/completions" 3 "你好" "备用") "Hello"
      emptyWorld).2.requests =
      [] ++ List.replicate apiWithFallback.maxRetries
          (requestFor apiWithFallback.primaryConfig "Hello") ++
        List.replicate 1
          (requestFor { FALLBACK_API_CONFIG with apiKey := "sk-fallback" } "Hello")) :=
  ⟨(translateText_retry_fallback apiWithFallback
      (mockNet "https://api.deepseek.com/v1/chat/completions" 1 "你好" "备用") "Hello"
      emptyWorld 2 "你好" (by decide) (by decide) (by decide)
      (fun h hh => by
        have h0 : List.count (requestFor apiWithFallback.primaryConfig "Hello") h ≠ 1 := by omega
        simp only [mockNet, h0, if_false]
        rfl)
      (fun h hh => by
        have h1 : List.count (requestFor apiWithFallback.primaryConfig "Hello") h = 1 := hh
        simp only [mockNet, h1, if_true]
        rfl)).1 (by decide),
   ((translateText_retry_fallback apiWithFallback
      (mockNet "https://api.deepseek.com/v1/chat/completions" 3 "你好" "备用") "Hello"
      emptyWorld 4 "你好" (by decide) (by decide) (by decide)
      (fun h hh => by
        have h0 : List.count (requestFor apiWithFallback.primaryConfig "Hello") h ≠ 3 := by omega
        simp only [mockNet, h0, if_false]
        rfl)
      (fun h hh => by
        have h1 : List.count (requestFor apiWithFallback.primaryConfig "Hello") h = 3 := hh
        simp only [mockNet, h1, if_true]
        rfl)).2 (by decide) { FALLBACK_API_CONFIG with apiKey := "sk-fallback" } rfl
      (by decide)).2 1 "备用" (by decide) (by decide) (by decide) (by decide)
      (fun h hh => by omega)
      (fun h _ => rfl)⟩

/-! ### The batch -/

/-- C4, at the two-file tree where `docs/b.md` is up to date and every translation succeeds:
the run translates one file, and reports `skippedCount = 0` although one file was skipped
(the counter is never incremented). -/
theorem run_oneStale_counts :
    (run (LocalTranslator.new TranslationAPI.new) alwaysOkNet oneStaleWorld).1 = .returned ∧
    (run (LocalTranslator.new TranslationAPI.new) alwaysOkNet oneStaleWorld).2.1.translatedCount = 1 ∧
    (run (LocalTranslator.new TranslationAPI.new) alwaysOkNet oneStaleWorld).2.1.failedCount = 0 ∧
    (run (LocalTranslator.new TranslationAPI.new) alwaysOkNet oneStaleWorld).2.1.skippedCount = 0 := by
  decide

/-! ### A missing credential -/

/-- C5 fails as stated: with two stale files and no credential, the configuration error does
not leave `run`; both files are processed, each is recorded as a failed file, the run is
left through `process.exit(1)`, and `translateText` has waited twice between its attempts. -/
theorem run_missing_key_counterexample :
    (run (LocalTranslator.new apiWithoutKey) alwaysOkNet twoStaleWorld).1 = .exited 1 ∧
    (run (LocalTranslator.new apiWithoutKey) alwaysOkNet twoStaleWorld).2.1.failedCount = 2 ∧
    (run (LocalTranslator.new apiWithoutKey) alwaysOkNet twoStaleWorld).2.2.events =
      [.translating ["docs", "a.md"], .failed ["docs", "a.md"],
       .translating ["docs", "b.md"], .failed ["docs", "b.md"]] ∧
    (translateText apiWithoutKey alwaysOkNet "A" twoStaleWorld).2.now =
      twoStaleWorld.now + 2 * 5000 := by
  decide

/-- C5, amended. When the primary provider has no credential, the error of `buildHeaders` is
caught like any other: every stale file is still handed to `translateFile`, in order; no
request goes to the primary provider (every request sent during the run went to a fallback
provider holding a credential); and when the fallback has no credential either, no request
is sent at all, every stale file is recorded as failed and none as translated, and a run with
at least one stale file ends with exit code 1 or with an error thrown by
`createCategoryFiles`. -/
theorem run_missing_primary_key (t : LocalTranslator) (net : Net) (w : World)
    (items : Entries) (stale : List FileTask)
    (hkey : t.translationAPI.primaryConfig.apiKey = "")
    (hitems : readdirSync w.root CONFIG.sourceDir = .ok items)
    (hstale : filterNeedsTranslation t w.root (getAllFiles items []) = .ok stale) :
    (run t net w).2.2.events.filterMap Event.translatingInput =
      w.events.filterMap Event.translatingInput ++ stale.map FileTask.input ∧
    (∃ added, (run t net w).2.2.requests = w.requests ++ added ∧
      ∀ r ∈ added, fromFallback t.translationAPI r) ∧
    ((∀ fc, t.translationAPI.fallbackConfig = some fc → fc.apiKey = "") →
      (run t net w).2.2.requests = w.requests ∧
      (run t net w).2.1.failedCount = t.failedCount + stale.length ∧
      (run t net w).2.1.translatedCount = t.translatedCount ∧
      (stale ≠ [] →
        (run t net w).1 = .exited 1 ∨
        ∃ e, (createCategoryFiles (translateLoop net stale t w).2).1 = .error e ∧
          (run t net w).1 = .threw e)) := by
  obtain ⟨h1, h2, h3, h4, _⟩ := run_state t net w items stale hitems hstale
  obtain ⟨_, _, _, hev⟩ := translateLoop_spec net stale t w
  obtain ⟨hadd, hno⟩ := translateLoop_noPrimaryKey net stale t w hkey
  refine ⟨by rw [h3]; exact hev, by rw [h2]; exact hadd, fun h => ?_⟩
  obtain ⟨a1, a2, a3⟩ := hno h
  refine ⟨by rw [h2]; exact a3, by rw [h1]; exact a1, by rw [h1]; exact a2, fun hne => ?_⟩
  obtain ⟨_, ⟨_, hres⟩ | ⟨e, he, hres⟩⟩ := h4 hne
  · left
    rw [hres, if_pos]
    rw [a1]
    cases stale with
    | nil => exact absurd rfl hne
    | cons f fs => simp
  · right
    exact ⟨e, he, hres⟩

/-- C5 amended, instance: two stale files and no credential at all. -/
theorem run_missing_primary_key_witness :
    (run (LocalTranslator.new apiWithoutKey) alwaysOkNet twoStaleWorld).2.2.requests =
      twoStaleWorld.requests ∧
    (run (LocalTranslator.new apiWithoutKey) alwaysOkNet twoStaleWorld).2.1.failedCount =
      (LocalTranslator.new apiWithoutKey).failedCount +
        [(⟨["docs", "a.md"], ["i18n", "zh", "docusaurus-plugin-content-docs", "current", "a.md"],
            ["a.md"]⟩ : FileTask),
         ⟨["docs", "b.md"], ["i18n", "zh", "docusaurus-plugin-content-docs", "current", "b.md"],
            ["b.md"]⟩].length :=
  ⟨((run_missing_primary_key (LocalTranslator.new apiWithoutKey) alwaysOkNet twoStaleWorld
      [("a.md", .file 10 "A"), ("b.md", .file 10 "B")]
      [⟨["docs", "a.md"], ["i18n", "zh", "docusaurus-plugin-content-docs", "current", "a.md"],
          ["a.md"]⟩,
       ⟨["docs", "b.md"], ["i18n", "zh", "docusaurus-plugin-content-docs", "current", "b.md"],
          ["b.md"]⟩]
      rfl rfl rfl).2.2 (fun fc hfc => by cases hfc; rfl)).1,
   ((run_missing_primary_key (LocalTranslator.new apiWithoutKey) alwaysOkNet twoStaleWorld
      [("a.md", .file 10 "A"), ("b.md", .file 10 "B")]
      [⟨["docs", "a.md"], ["i18n", "zh", "docusaurus-plugin-content-docs", "current", "a.md"],
          ["a.md"]⟩,
       ⟨["docs", "b.md"], ["i18n", "zh", "docusaurus-plugin-content-docs", "current", "b.md"],
          ["b.md"]⟩]
      rfl rfl rfl).2.2 (fun fc hfc => by cases hfc; rfl)).2.1⟩

/-! ### Exit code -/

/-- C8 fails as stated: when the source directory `docs` does not exist, no file has failed to
translate and yet the exit code is 1 (the error of `fs.readdirSync` reaches `main().catch`). -/
theorem main_exit_code_counterexample :
    (main [] TranslationAPI.new alwaysOkNet emptyWorld).1 = 1 ∧
    (main [] TranslationAPI.new alwaysOkNet emptyWorld).2.1.failedCount = 0 ∧
    (run (LocalTranslator.new TranslationAPI.new) alwaysOkNet emptyWorld).1 =
      .threw "ENOENT: no such file or directory, scandir" := by
  decide

/-- C8, amended. For an invocation without `--help`, `-h` and `--dry-run`, the exit code is 1
exactly when at least one file failed to translate or `run` ended with an uncaught error, and
it is 0 otherwise. -/
theorem main_exit_code (args : List String) (api : TranslationAPI) (net : Net) (w : World)
    (hhelp : args.contains "--help" = false) (hh : args.contains "-h" = false)
    (hdry : args.contains "--dry-run" = false) :
    ((main args api net w).1 = 1 ↔
      ((main args api net w).2.1.failedCount > 0 ∨
        ∃ e, (run (mainTranslator args api) net w).1 = .threw e)) ∧
    ((main args api net w).1 ≠ 1 → (main args api net w).1 = 0) := by
  have ht : (mainTranslator args api).failedCount = 0 := by
    unfold mainTranslator
    split <;> rfl
  obtain ⟨hret, hexit⟩ := run_result (mainTranslator args api) net w ht
  have hmain : main args api net w =
      (match run (mainTranslator args api) net w with
       | (.returned, t1, w1) => (0, t1, w1)
       | (.exited code, t1, w1) => (code, t1, w1)
       | (.threw _, t1, w1) => (1, t1, w1)) := by
    unfold main mainTranslator
    simp only [hhelp, hh, hdry, Bool.or_self, Bool.false_eq_true, if_false]
  rw [hmain]
  rcases hr : run (mainTranslator args api) net w with ⟨res, t1, w1⟩
  rw [hr] at hret hexit
  cases res with
  | returned =>
    have h0 : t1.failedCount = 0 := hret rfl
    simp [h0]
  | exited code =>
    obtain ⟨hc, hpos⟩ := hexit code rfl
    subst hc
    simp only at hpos
    simp [hpos]
  | threw e => simp

/-- C8 amended, instance: a plain invocation on a tree without `docs`. -/
theorem main_exit_code_witness :
    (main [] TranslationAPI.new alwaysOkNet emptyWorld).1 = 1 ↔
      ((main [] TranslationAPI.new alwaysOkNet emptyWorld).2.1.failedCount > 0 ∨
        ∃ e, (run (mainTranslator [] TranslationAPI.new) alwaysOkNet emptyWorld).1 = .threw e) :=
  (main_exit_code [] TranslationAPI.new alwaysOkNet emptyWorld (by decide) (by decide)
    (by decide)).1

/-! ### Category descriptors -/

/-- C10. Running `createCategoryFiles` a second time, at any later time, leaves the filesystem
as the first run left it: at every path the same kind of node is found and every regular
file has the same content.  The first run changes neither the names listed in the output
directory nor which of them are directories. -/
theorem createCategoryFiles_idempotent (w : World) (t2 : Int) :
    (∀ q, shallowAt (createCategoryFiles { (createCategoryFiles w).2 with now := t2 }).2.root q =
      shallowAt (createCategoryFiles w).2.root q) ∧
    (∀ es, readdirSync w.root CONFIG.outputDir = .ok es →
      ∃ es1, readdirSync (createCategoryFiles w).2.root CONFIG.outputDir = .ok es1 ∧
        es1.map Prod.fst = es.map Prod.fst ∧
        ∀ d, shallowAt (createCategoryFiles w).2.root (CONFIG.outputDir ++ [d]) =
          shallowAt w.root (CONFIG.outputDir ++ [d])) := by
  obtain ⟨hok, herr⟩ := createCategoryFiles_of_readdir w
  cases hread : readdirSync w.root CONFIG.outputDir with
  | error e =>
    have h1 := herr e hread
    refine ⟨?_, fun es hes => (by cases hes)⟩
    intro q
    rw [h1]
    obtain ⟨_, herr2⟩ := createCategoryFiles_of_readdir { w with now := t2 }
    rw [herr2 e hread]
  | ok es =>
    have h1 := hok es hread
    obtain ⟨es1, hes1, hnames⟩ := createCategoryLoop_readdir CONFIG.outputDir (es.map Prod.fst)
      w es hread
    constructor
    · intro q
      obtain ⟨hok2, _⟩ := createCategoryFiles_of_readdir
        { (createCategoryFiles w).2 with now := t2 }
      rw [hok2 es1 (by rw [h1]; exact hes1), hnames, h1]
      exact createCategoryLoop_again CONFIG.outputDir (es.map Prod.fst) w
        { (createCategoryLoop CONFIG.outputDir (es.map Prod.fst) w).2 with now := t2 }
        (fun _ => rfl) q
    · intro es0 hes0
      cases hes0
      rw [h1]
      refine ⟨es1, hes1, hnames, fun d => ?_⟩
      exact createCategoryLoop_keeps CONFIG.outputDir (es.map Prod.fst) w
        (CONFIG.outputDir ++ [d]) _ rfl
        (fun i _ hq => absurd hq (categoryFilePath_ne_dir CONFIG.outputDir d i))

/-- C9, at an output tree with the subdirectories `audio`, `misc` and `constructor` and the
file `notes.md`: the descriptors of `audio` and `misc` carry the table's label and the
directory's own name, nothing is written for `notes.md`, but the descriptor written for
`constructor` has no `label` field at all, because `CATEGORY_LABELS['constructor']` is the
function inherited from `Object.prototype`. -/
theorem createCategoryFiles_constructor :
    (createCategoryFiles categoryWorld).1 = .ok () ∧
    shallowAt (createCategoryFiles categoryWorld).2.root
        (categoryFilePath CONFIG.outputDir "audio") =
      some (.file
        "\x7b\n  \"label\": \"音频编解码器\",\n  \"position\": 1,\n  \"link\": \x7b\n    \"type\": \"generated-index\"\n  \x7d\n\x7d") ∧
    shallowAt (createCategoryFiles categoryWorld).2.root
        (categoryFilePath CONFIG.outputDir "misc") =
      some (.file
        "\x7b\n  \"label\": \"misc\",\n  \"position\": 1,\n  \"link\": \x7b\n    \"type\": \"generated-index\"\n  \x7d\n\x7d") ∧
    shallowAt (createCategoryFiles categoryWorld).2.root
        (categoryFilePath CONFIG.outputDir "notes.md") = none ∧
    categoryLabel "constructor" = .function "constructor" ∧
    shallowAt (createCategoryFiles categoryWorld).2.root
        (categoryFilePath CONFIG.outputDir "constructor") =
      some (.file
        "\x7b\n  \"position\": 1,\n  \"link\": \x7b\n    \"type\": \"generated-index\"\n  \x7d\n\x7d") := by
  refine ⟨rfl, ?_, ?_, ?_, ?_, ?_⟩ <;> decide

/-! ### The scanner -/

/-- C7. For a source directory whose tree is well formed, `getAllFiles` returns exactly one
task per relative path at which a regular file is found whose name has the extension `.md`
or `.mdx` and none of whose ancestor directories below the source directory is called `zh`;
it returns no other task, and every task has its relative path under the source directory as
input and under the output directory as output. -/
theorem getAllFiles_spec (root : Node) (items : Entries)
    (hitems : readdirSync root CONFIG.sourceDir = .ok items) (hwf : wfEntries items) :
    ((getAllFiles items []).map FileTask.relativePath).Nodup ∧
    (∀ t ∈ getAllFiles items [],
      t.input = CONFIG.sourceDir ++ t.relativePath ∧
      t.output = CONFIG.outputDir ++ t.relativePath) ∧
    (∀ rel, rel ∈ (getAllFiles items []).map FileTask.relativePath ↔
      ((∃ m c, lookup root (CONFIG.sourceDir ++ rel) = some (.file m c)) ∧
       (∃ name, rel.getLast? = some name ∧ extname name ∈ [".md", ".mdx"]) ∧
       (∀ d ∈ rel.dropLast, d ∉ ["zh"]))) := by
  obtain ⟨hnd, hmem⟩ := candidatePaths_spec items hwf
  obtain ⟨m, hdir⟩ := readdirSync_ok root CONFIG.sourceDir items hitems
  have hrel : (getAllFiles items []).map FileTask.relativePath = candidatePaths items := by
    rw [getAllFiles_eq_map, List.map_map]
    have : (FileTask.relativePath ∘ fun rel => taskFor ([] ++ rel)) = id := by
      funext rel
      simp [taskFor]
    rw [this, List.map_id]
  refine ⟨by rw [hrel]; exact hnd, ?_, fun rel => ?_⟩
  · intro t ht
    rw [getAllFiles_eq_map] at ht
    obtain ⟨rel, _, rfl⟩ := List.mem_map.mp ht
    exact ⟨rfl, rfl⟩
  · rw [hrel, hmem, lookup_append _ rel root _ hdir, lookup_dir_file_mtime]
    rfl

/-- C7, instance: the scan of `sampleDocs`. -/
theorem getAllFiles_spec_witness :
    ((getAllFiles sampleDocs []).map FileTask.relativePath).Nodup ∧
    (∀ t ∈ getAllFiles sampleDocs [],
      t.input = CONFIG.sourceDir ++ t.relativePath ∧
      t.output = CONFIG.outputDir ++ t.relativePath) ∧
    (∀ rel, rel ∈ (getAllFiles sampleDocs []).map FileTask.relativePath ↔
      ((∃ m c, lookup sampleRoot (CONFIG.sourceDir ++ rel) = some (.file m c)) ∧
       (∃ name, rel.getLast? = some name ∧ extname name ∈ [".md", ".mdx"]) ∧
       (∀ d ∈ rel.dropLast, d ∉ ["zh"]))) :=
  getAllFiles_spec sampleRoot sampleDocs rfl
    (by simp [sampleDocs, wfEntries, Node.wf, lookupEntry])

end CodecWiki
